import Mathlib

/-!
Verification of the daily-planner repository (`src/server.js`: an Express
server holding `normalizeState`, and the bundled React client with its own
`normalizeState`, the task operations, the ordering/filtering engine and
the pomodoro timer subsystem).

The JavaScript data is shallowly embedded: JSON-like values are the
inductive `JSValue`; JS numbers are modelled as integers (`Int`) and the
floating-point value `NaN` arising from `Number(...)` coercions is
modelled by `Option.none` where the code inspects it; JS objects are
association lists in insertion order (the special enumeration order JS
applies to integer-like keys is not modelled); string collation
(`localeCompare`) is modelled as code-point comparison; the stable
`Array.prototype.sort` is modelled by the stable `List.insertionSort`.
Effectful bits (`window.prompt`, `crypto.randomUUID`, `Date.now`, the
current IST day) enter as explicit parameters.
-/

namespace Planner

/-- A JSON-like JavaScript value (the shape of documents that can reach
`normalizeState` through `JSON.parse` or the express JSON body parser). -/
inductive JSValue where
  | null : JSValue
  | bool : Bool → JSValue
  | num : Int → JSValue
  | str : String → JSValue
  | arr : List JSValue → JSValue
  | obj : List (String × JSValue) → JSValue
deriving Repr

/-- JS truthiness of a value (`Boolean(v)`): `null`, `false`, `0` and the
empty string are falsy; every array and object is truthy. -/
def jsTruthy : JSValue → Bool
  | .null => false
  | .bool b => b
  | .num n => n != 0
  | .str s => s != ""
  | .arr _ => true
  | .obj _ => true

/-- The characters trimmed by JS `String.prototype.trim` (the `\s` class,
restricted to the escapes that can practically occur here). -/
def isJsWhitespace (c : Char) : Bool :=
  c = ' ' || c = '\t' || c = '\n' || c = '\r' || c = '\x0b' || c = '\x0c'

/-- JS `String.prototype.trim`: drop leading and trailing whitespace. -/
def jsTrim (s : String) : String :=
  ⟨(((s.data.dropWhile isJsWhitespace).reverse.dropWhile isJsWhitespace).reverse)⟩

mutual

/-- JS `String(v)` string coercion: `null` prints as `"null"`, arrays join
their elements with commas (`null` elements joining as the empty string),
plain objects print as `"[object Object]"`. -/
def jsToString : JSValue → String
  | .null => "null"
  | .bool true => "true"
  | .bool false => "false"
  | .num n => toString n
  | .str s => s
  | .arr xs => String.intercalate "," (jsJoinParts xs)
  | .obj _ => "[object Object]"

/-- The per-element strings used by `Array.prototype.join` (`null` and
`undefined` elements become empty strings). -/
def jsJoinParts : List JSValue → List String
  | [] => []
  | .null :: rest => "" :: jsJoinParts rest
  | v :: rest => jsToString v :: jsJoinParts rest

end

/-- Parse an optional-sign decimal string, the fragment of JS
`Number(string)` needed here. Whitespace-only strings give `0`; anything
that is not entirely an integer literal is modelled as `NaN` (`none`);
non-integer numerics are outside the integer model and also map to `none`. -/
def jsStringToNum (s : String) : Option Int :=
  let t := jsTrim s
  if t = "" then some 0
  else
    match t.data with
    | '-' :: ds => if ds ≠ [] ∧ ds.all Char.isDigit then some (-(String.toNat! ⟨ds⟩ : Int)) else none
    | '+' :: ds => if ds ≠ [] ∧ ds.all Char.isDigit then some ((String.toNat! ⟨ds⟩ : Int)) else none
    | ds => if ds.all Char.isDigit then some ((String.toNat! ⟨ds⟩ : Int)) else none

/-- JS `Number(v)` coercion into the integer model; `none` stands for
`NaN`. Arrays coerce through their string form. -/
def jsToNum : JSValue → Option Int
  | .null => some 0
  | .bool true => some 1
  | .bool false => some 0
  | .num n => some n
  | .str s => jsStringToNum s
  | .arr xs => jsStringToNum (jsToString (.arr xs))
  | .obj _ => none

/-- Property access `v.key`: `none` models JS `undefined` (also the result
of accessing a named property on a non-object). Objects produced by
`JSON.parse` have unique keys, so first-match lookup is faithful. -/
def jsField : JSValue → String → Option JSValue
  | .obj fs, k => (fs.find? (fun p => p.1 = k)).map (fun p => p.2)
  | _, _ => none

/-- The JS idiom `x || d` applied to a possibly-undefined value: keep `x`
when it is present and truthy, otherwise use the default `d`. -/
def orDefault (x : Option JSValue) (d : JSValue) : JSValue :=
  match x with
  | some v => if jsTruthy v then v else d
  | none => d

/-- `String(x || d)` for a possibly-undefined `x`. -/
def strOr (x : Option JSValue) (d : JSValue) : String :=
  jsToString (orDefault x d)

/-- `String(x)` where `x` may be `undefined`. -/
def jsToStringU (x : Option JSValue) : String :=
  match x with
  | some v => jsToString v
  | none => "undefined"

/-- `Boolean(x)` where `x` may be `undefined`. -/
def jsTruthyU (x : Option JSValue) : Bool :=
  match x with
  | some v => jsTruthy v
  | none => false

/-- Whether `v && typeof v === "object"` holds (arrays included, `null`
excluded). -/
def isObjectLike : JSValue → Bool
  | .obj _ => true
  | .arr _ => true
  | _ => false

/-- `Object.entries(v)` for an object-like value: objects enumerate their
fields in insertion order, arrays enumerate index/value pairs. -/
def jsEntries : JSValue → List (String × JSValue)
  | .obj fs => fs
  | .arr xs => (xs.enum).map (fun p => (toString p.1, p.2))
  | _ => []

end Planner

namespace Planner

/-- Association-list read, modelling JS object property lookup
(`m[k]`, `none` = `undefined`). -/
def alGet {β : Type} (m : List (String × β)) (k : String) : Option β :=
  (m.find? (fun p => p.1 = k)).map (fun p => p.2)

/-- Association-list write, modelling JS object property assignment
`m[k] = v`: replace in place if the key exists, else append. -/
def alSet {β : Type} (m : List (String × β)) (k : String) (v : β) : List (String × β) :=
  if (m.find? (fun p => p.1 = k)).isSome then
    m.map (fun p => if p.1 = k then (k, v) else p)
  else
    m ++ [(k, v)]

/-- Association-list delete, modelling `delete m[k]`. -/
def alDelete {β : Type} (m : List (String × β)) (k : String) : List (String × β) :=
  m.filter (fun p => p.1 ≠ k)

/-- The regex `/^#[0-9a-fA-F]{6}$/` applied to a category color string. -/
def isHexColor (s : String) : Bool :=
  match s.data with
  | c :: rest => c = '#' && rest.length = 6 && rest.all (fun c => c.isDigit || ('a' ≤ c && c ≤ 'f') || ('A' ≤ c && c ≤ 'F'))
  | [] => false

/-- Worker for `dedupKeepFirst`: drop elements already seen. -/
def dedupKeepFirstAux (seen : List String) : List String → List String
  | [] => []
  | x :: xs =>
      if seen.contains x then dedupKeepFirstAux seen xs
      else x :: dedupKeepFirstAux (x :: seen) xs

/-- `Array.from(new Set(l))`: deduplicate keeping the first occurrence of
each element, preserving order. -/
def dedupKeepFirst (l : List String) : List String :=
  dedupKeepFirstAux [] l

/-- `l.map (fun x i => f i x)` with explicit 0-based indices (JS
`Array.prototype.map` passes the index as second callback argument). -/
def mapIdxFrom {α β : Type} (f : Nat → α → β) : Nat → List α → List β
  | _, [] => []
  | i, a :: as => f i a :: mapIdxFrom f (i + 1) as

/-- `Array.prototype.map` with the element index. -/
def jsMapIdx {α β : Type} (f : Nat → α → β) (l : List α) : List β :=
  mapIdxFrom f 0 l

/-- `DEFAULT_CATEGORY_COLOR` from `src/server.js` (both halves define the
same constant). -/
def DEFAULT_CATEGORY_COLOR : String := "#4f8dfd"

/-- A normalized planner task, the element shape produced by the server
`normalizeState` and manipulated by the client operations. `order` is the
optional manual rank (absent = `none`); the server normalizer never emits
it. -/
structure Task where
  id : String
  name : String
  description : String
  priority : String
  category : String
  taskType : String
  meetingTime : String
  date : String
  done : Bool
  hidden : Bool
  createdAt : Int
  order : Option Int := none
deriving Repr, DecidableEq

/-- The server-side normalized state (`normalizeState` in the Express
half returns exactly these four fields). -/
structure SState where
  tasks : List Task
  categories : List String
  categoryColors : List (String × String)
  selectedDate : String
deriving Repr, DecidableEq

/-- The categories stage of the server `normalizeState`: use
`raw.categories` when it is an array (else the default `["General"]`),
stringify-and-trim every entry, drop empties, deduplicate keeping first
occurrences, and unshift `"General"` when missing. -/
def normCategories (payload : JSValue) : List String :=
  let categoriesInput : List JSValue :=
    match jsField payload "categories" with
    | some (.arr xs) => xs
    | _ => [.str "General"]
  let cats0 : List String :=
    dedupKeepFirst (((categoriesInput.map (fun x => jsTrim (strOr (some x) (.str "")))).filter (fun s => s ≠ "")))
  if cats0.contains "General" then cats0 else "General" :: cats0

/-- The category-colors stage of the server `normalizeState`: keep raw
entries with a non-empty trimmed key and a 6-hex trimmed value, then give
every category lacking a color the default one. -/
def normColors (payload : JSValue) (categories : List String) : List (String × String) :=
  let colorPairs : List (String × JSValue) :=
    match jsField payload "categoryColors" with
    | some v => if isObjectLike v then jsEntries v else []
    | none => []
  let colors0 : List (String × String) :=
    colorPairs.foldl
      (fun m kv =>
        let category := jsTrim kv.1
        let color := jsTrim (strOr (some kv.2) (.str ""))
        if category ≠ "" ∧ isHexColor color then alSet m category color else m)
      []
  categories.foldl
    (fun m c => if ((alGet m c).getD "") = "" then alSet m c DEFAULT_CATEGORY_COLOR else m)
    colors0

/-- The per-task coercion of the server `normalizeState` for the `i`-th
kept raw task. -/
def normTask (uuid : Nat → String) (now : Int) (today : String) (categories : List String) (i : Nat) (task : JSValue) : Task :=
  { id := strOr (jsField task "id") (.str (uuid i))
    name := strOr (jsField task "name") (.str "")
    description := strOr (jsField task "description") (.str "")
    priority := strOr (jsField task "priority") (.str "Medium")
    category :=
      if categories.contains (strOr (jsField task "category") (.str "")) then
        jsToStringU (jsField task "category")
      else "General"
    taskType := strOr (jsField task "taskType") (.str "Work")
    meetingTime := strOr (jsField task "meetingTime") (.str "")
    date := strOr (jsField task "date") (.str today)
    done := jsTruthyU (jsField task "done")
    hidden := jsTruthyU (jsField task "hidden")
    createdAt := (jsToNum (orDefault (jsField task "createdAt") (.num now))).getD 0
    order := none }

/-- `raw.tasks` when it is an array, else the empty list. -/
def rawTasksOf (payload : JSValue) : List JSValue :=
  match jsField payload "tasks" with
  | some (.arr xs) => xs
  | _ => []

/-- `normalizeState` from the server half of `src/server.js` (lines
34-90). `uuid i` stands for the `randomUUID()` drawn for the `i`-th kept
task, `now` for `Date.now()` and `today` for `getTodayDateIST()`. -/
def normalizeStateServer (uuid : Nat → String) (now : Int) (today : String) (payload : JSValue) : SState :=
  let categories := normCategories payload
  { tasks := jsMapIdx (normTask uuid now today categories) ((rawTasksOf payload).filter isObjectLike)
    categories := categories
    categoryColors := normColors payload categories
    selectedDate := strOr (jsField payload "selectedDate") (.str today) }

/-- The JSON object a normalized server task denotes (field order as in
the object literal in the source; the absent `order` key emits nothing). -/
def taskToJS (t : Task) : JSValue :=
  .obj ([("id", .str t.id), ("name", .str t.name), ("description", .str t.description),
         ("priority", .str t.priority), ("category", .str t.category),
         ("taskType", .str t.taskType), ("meetingTime", .str t.meetingTime),
         ("date", .str t.date), ("done", .bool t.done), ("hidden", .bool t.hidden),
         ("createdAt", .num t.createdAt)] ++
        (match t.order with
         | some o => [("order", JSValue.num o)]
         | none => []))

/-- The JSON document a server-normalized state denotes, used to feed one
`normalizeState` result back into another call. -/
def stateToJS (s : SState) : JSValue :=
  .obj [("tasks", .arr (s.tasks.map taskToJS)),
        ("categories", .arr (s.categories.map .str)),
        ("categoryColors", .obj (s.categoryColors.map (fun p => (p.1, .str p.2)))),
        ("selectedDate", .str s.selectedDate)]

end Planner

namespace Planner

/-- A pomodoro timer entry (client `pomodoroTimers[taskId]`). -/
structure Timer where
  remainingSeconds : Int
  durationSeconds : Int
  isRunning : Bool
deriving Repr, DecidableEq

/-- `DEFAULT_POMODORO_SECONDS = 30 * 60` from the client half. -/
def DEFAULT_POMODORO_SECONDS : Int := 30 * 60

/-- `ALLOWED_SORT_BY` from the client half. -/
def ALLOWED_SORT_BY : List String := ["priority", "category", "taskType", "createdAt", "manual"]

/-- `normalizePomodoroTimers` from the client half: repair a raw
`pomodoroTimers` object into per-task timers with the duration defaulted
to 30 minutes, the remaining time clamped into `[0, durationSeconds]`,
and `isRunning` forced off at zero. -/
def normalizePomodoroTimers (rawTimers : JSValue) : List (String × Timer) :=
  if isObjectLike rawTimers then
    (jsEntries rawTimers).foldl
      (fun m kv =>
        let taskId := kv.1
        let timer := kv.2
        if taskId = "" ∨ ¬ jsTruthy timer ∨ ¬ isObjectLike timer then m
        else
          let durationSeconds : Int :=
            match jsToNum ((jsField timer "durationSeconds").getD .null) with
            | some d => if 0 < d then d else DEFAULT_POMODORO_SECONDS
            | none => DEFAULT_POMODORO_SECONDS
          let remainingSeconds : Int :=
            match jsToNum ((jsField timer "remainingSeconds").getD .null) with
            | some r => max 0 (min durationSeconds r)
            | none => durationSeconds
          alSet m taskId
            { remainingSeconds := remainingSeconds
              durationSeconds := durationSeconds
              isRunning := jsTruthyU (jsField timer "isRunning") && decide (0 < remainingSeconds) })
      []
  else []

/-- `buildCategoryColors` from the client half: keep raw entries whose
trimmed value is a 6-hex color (keys are not trimmed here, unlike the
server), then give every category (or `"General"` when the list is
empty) the default color if it has none. -/
def buildCategoryColors (rawCategoryColors : JSValue) (categories : List String) : List (String × String) :=
  let base : List (String × String) :=
    if isObjectLike rawCategoryColors then
      (jsEntries rawCategoryColors).foldl
        (fun m kv =>
          let value := jsTrim (strOr (some kv.2) (.str ""))
          if isHexColor value then alSet m kv.1 value else m)
        []
    else []
  (if categories.length ≠ 0 then categories else ["General"]).foldl
    (fun m c => if ((alGet m c).getD "") = "" then alSet m c DEFAULT_CATEGORY_COLOR else m)
    base

/-- The client-side normalized state: `normalizeState` in the React half
returns these six fields; note that `tasks` is passed through raw,
without any per-task coercion. -/
structure CNState where
  tasks : List JSValue
  categories : List String
  categoryColors : List (String × String)
  selectedDate : String
  sortBy : String
  pomodoroTimers : List (String × Timer)
deriving Repr

/-- `createDefaultState()` from the client half. -/
def createDefaultState (today : String) : CNState :=
  { tasks := []
    categories := ["General"]
    categoryColors := [("General", DEFAULT_CATEGORY_COLOR)]
    selectedDate := today
    sortBy := "priority"
    pomodoroTimers := [] }

/-- `normalizeState` from the client half of `src/server.js` (lines
321-338). -/
def normalizeStateClient (today : String) (raw : JSValue) : CNState :=
  let fallback := createDefaultState today
  if ¬ (jsTruthy raw ∧ isObjectLike raw) then fallback
  else
    let tasks : List JSValue :=
      match jsField raw "tasks" with
      | some (.arr xs) => xs
      | _ => []
    let categories : List String :=
      match jsField raw "categories" with
      | some (.arr xs) =>
          dedupKeepFirst ((xs.map (fun x => jsTrim (strOr (some x) (.str "")))).filter (fun s => s ≠ ""))
      | _ => fallback.categories
    { tasks := tasks
      categories := if categories.length ≠ 0 then categories else fallback.categories
      categoryColors := buildCategoryColors ((jsField raw "categoryColors").getD .null) categories
      selectedDate :=
        match jsField raw "selectedDate" with
        | some (.str s) => if s ≠ "" then s else fallback.selectedDate
        | _ => fallback.selectedDate
      sortBy :=
        match jsField raw "sortBy" with
        | some (.str s) => if ALLOWED_SORT_BY.contains s then s else fallback.sortBy
        | _ => fallback.sortBy
      pomodoroTimers := normalizePomodoroTimers ((jsField raw "pomodoroTimers").getD .null) }

end Planner

namespace Planner

/-- The in-memory client planner state mutated by the UI operations
(`data` in the React component, with well-formed task objects, plus the
persisted `sortBy`). The pomodoro timers live in their own React state
and are threaded separately. -/
structure CState where
  tasks : List Task
  categories : List String
  categoryColors : List (String × String)
  selectedDate : String
  sortBy : String
deriving Repr, DecidableEq

/-- JS code-point string comparison standing in for `localeCompare`
(negative / zero / positive). -/
def localeCmp (a b : String) : Int :=
  match compare a b with
  | .lt => -1
  | .eq => 0
  | .gt => 1

/-- A JS stable comparator sort (`Array.prototype.sort(cmp)`), modelled
by the stable insertion sort with `cmp a b ≤ 0` as the order. -/
def jsSortBy {α : Type} (cmp : α → α → Int) (l : List α) : List α :=
  l.insertionSort (fun a b => cmp a b ≤ 0)

/-- `String.prototype.toLowerCase`, modelled on the ASCII range. -/
def jsToLower (s : String) : String :=
  ⟨s.data.map (fun c => if 'A' ≤ c ∧ c ≤ 'Z' then Char.ofNat (c.toNat + 32) else c)⟩

/-- `addCategory` from the client half (lines 494-513), restricted to its
effect on the planner state: trim the proposed name, refuse empty or
case-insensitive duplicates, else append it, re-sort the category list
alphabetically and record the picked color. -/
def addCategory (s : CState) (newCategory : String) (newCategoryColor : String) : CState :=
  let name := jsTrim newCategory
  if name = "" then s
  else if s.categories.any (fun cat => jsToLower cat = jsToLower name) then s
  else
    { s with
      categories := jsSortBy localeCmp (s.categories ++ [name])
      categoryColors := alSet s.categoryColors name newCategoryColor }

/-- `deleteCategory` from the client half (lines 515-538), restricted to
its effect on the planner state: `"General"` is refused; otherwise the
category is removed, its tasks are reassigned to `"General"` (or the
first remaining category — modelled as `""` when none exists, standing
for JS `undefined`), and its color entry is dropped. -/
def deleteCategory (s : CState) (categoryName : String) : CState :=
  if categoryName = "General" then s
  else
    let categories := s.categories.filter (fun item => item ≠ categoryName)
    let fallbackCategory :=
      if categories.contains "General" then "General" else (categories.headD "")
    let tasks :=
      s.tasks.map (fun task =>
        if task.category = categoryName then { task with category := fallbackCategory } else task)
    { s with
      categories := categories
      categoryColors := alDelete s.categoryColors categoryName
      tasks := tasks }

/-- The per-task update performed by `toggleDone` (lines 594-603): a task
that is done or hidden goes back to visible-pending, a visible pending
task becomes done and hidden. -/
def toggleDoneTask (taskId : String) (task : Task) : Task :=
  if task.id ≠ taskId then task
  else if task.done ∨ task.hidden then { task with done := false, hidden := false }
  else { task with done := true, hidden := true }

/-- `toggleDone` from the client half. -/
def toggleDone (s : CState) (taskId : String) : CState :=
  { s with tasks := s.tasks.map (toggleDoneTask taskId) }

/-- `hideTask` from the client half (lines 605-610): hide the task and
clear its done flag. -/
def hideTask (s : CState) (taskId : String) : CState :=
  { s with
    tasks := s.tasks.map (fun task =>
      if task.id = taskId then { task with hidden := true, done := false } else task) }

/-- `Array.prototype.findIndex`. -/
def jsFindIndex {α : Type} (p : α → Bool) : List α → Option Nat
  | [] => none
  | a :: as => if p a then some 0 else (jsFindIndex p as).map (fun i => i + 1)

/-- `splice(i, 1)`: remove the element at index `i`. -/
def jsRemoveAt {α : Type} : List α → Nat → List α
  | [], _ => []
  | _ :: as, 0 => as
  | a :: as, i + 1 => a :: jsRemoveAt as i

/-- `splice(i, 0, x)`: insert `x` at index `i` (clamped to the end). -/
def jsInsertAt {α : Type} (x : α) : List α → Nat → List α
  | l, 0 => x :: l
  | [], _ + 1 => [x]
  | a :: as, i + 1 => a :: jsInsertAt x as i

/-- `reorderTasksWithinDay` from the client half (lines 649-685),
restricted to its effect on the planner state: drop the dragged task into
the target position among the selected day's tasks (ranked by their
current `order`, with the array index as implicit rank), renumber the
day's tasks `0..n-1`, and switch `sortBy` to `"manual"`. -/
def reorderTasksWithinDay (s : CState) (sourceId targetId : String) : CState :=
  if sourceId = "" ∨ targetId = "" ∨ sourceId = targetId then s
  else
    let sameDateTasks := s.tasks.filter (fun t => t.date = s.selectedDate)
    let otherTasks := s.tasks.filter (fun t => t.date ≠ s.selectedDate)
    let ordered :=
      (jsSortBy (fun a b => a.1 - b.1)
        (jsMapIdx (fun i t => ((t.order.getD (Int.ofNat i)), t)) sameDateTasks)).map (fun e => e.2)
    match jsFindIndex (fun t => t.id = sourceId) ordered,
          jsFindIndex (fun t => t.id = targetId) ordered with
    | some fromIndex, some toIndex =>
        match ordered[fromIndex]? with
        | some moved =>
            let reordered := jsInsertAt moved (jsRemoveAt ordered fromIndex) toIndex
            let reindexed := jsMapIdx (fun i t => { t with order := some (Int.ofNat i) }) reordered
            { s with tasks := otherTasks ++ reindexed, sortBy := "manual" }
        | none => s
    | _, _ => s

end Planner

namespace Planner

/-- `parseMeetingMinutes` (lines 234-241): parse minutes-since-midnight
out of an `"HH:MM AM/PM"` label via `/^(\d{2}):(\d{2})\s(AM|PM)/`;
missing or unparseable labels give `9999` so that they sort last. -/
def parseMeetingMinutes (timeLabel : String) : Int :=
  if timeLabel = "" then 9999
  else
    match timeLabel.data with
    | h1 :: h2 :: ':' :: m1 :: m2 :: sp :: ap :: 'M' :: _ =>
        if h1.isDigit ∧ h2.isDigit ∧ m1.isDigit ∧ m2.isDigit ∧ isJsWhitespace sp ∧ (ap = 'A' ∨ ap = 'P') then
          let hour0 : Int := (10 * ((h1.toNat : Int) - 48) + ((h2.toNat : Int) - 48)) % 12
          let hour : Int := if ap = 'P' then hour0 + 12 else hour0
          hour * 60 + (10 * ((m1.toNat : Int) - 48) + ((m2.toNat : Int) - 48))
        else 9999
    | _ => 9999

/-- `PRIORITY_ORDER[p] ?? 99` from the client half. -/
def PRIORITY_ORDER (p : String) : Int :=
  if p = "High" then 0 else if p = "Medium" then 1 else if p = "Low" then 2 else 99

/-- The comparator used by the non-manual branches of the `visibleTasks`
sort (lines 820-843). -/
def compareTasks (sortBy : String) (a b : Task) : Int :=
  if sortBy = "priority" then
    let rankDiff := PRIORITY_ORDER a.priority - PRIORITY_ORDER b.priority
    if rankDiff ≠ 0 then rankDiff
    else if a.taskType = "Meeting" ∧ b.taskType = "Meeting" then
      parseMeetingMinutes a.meetingTime - parseMeetingMinutes b.meetingTime
    else localeCmp a.name b.name
  else if sortBy = "category" then
    let diff := localeCmp a.category b.category
    if diff ≠ 0 then diff else localeCmp a.name b.name
  else if sortBy = "taskType" then
    let diff := localeCmp a.taskType b.taskType
    if diff ≠ 0 then diff else localeCmp a.name b.name
  else b.createdAt - a.createdAt

/-- The filter predicate of `visibleTasks` (lines 800-808). -/
def taskPassesFilters (selectedDate : String) (showAllTasks : Bool) (filterType filterCategory filterStatus : String) (task : Task) : Bool :=
  if task.date ≠ selectedDate then false
  else if ¬ showAllTasks ∧ task.hidden then false
  else if filterType ≠ "All" ∧ task.taskType ≠ filterType then false
  else if filterCategory ≠ "All" ∧ task.category ≠ filterCategory then false
  else if filterStatus = "Pending" ∧ task.done then false
  else if filterStatus = "Completed" ∧ ¬ task.done then false
  else true

/-- `visibleTasks` (lines 799-846): filter the day's tasks and sort them
according to the current sort mode. -/
def visibleTasks (tasks : List Task) (selectedDate : String) (showAllTasks : Bool) (filterType filterCategory filterStatus sortBy : String) : List Task :=
  let filtered := tasks.filter (taskPassesFilters selectedDate showAllTasks filterType filterCategory filterStatus)
  if sortBy = "manual" then
    (jsSortBy (fun a b => a.1 - b.1)
      (jsMapIdx (fun i t => ((t.order.getD (Int.ofNat i)), t)) filtered)).map (fun e => e.2)
  else
    jsSortBy (compareTasks sortBy) filtered

/-- `Number.parseInt(s, 10)`: skip leading whitespace, take an optional
sign and then the longest digit prefix; no digits means `NaN` (`none`). -/
def jsParseInt (s : String) : Option Int :=
  let digitsPrefix : List Char → Option Int := fun ds =>
    let p := ds.takeWhile Char.isDigit
    if p.isEmpty then none
    else some ((p.foldl (fun acc c => 10 * acc + (c.toNat - 48)) 0 : Nat) : Int)
  match s.data.dropWhile isJsWhitespace with
  | '-' :: ds => (digitsPrefix ds).map (fun n => -n)
  | '+' :: ds => digitsPrefix ds
  | ds => digitsPrefix ds

/-- `startPomodoro` (lines 707-736), restricted to its effect on the
timer map. `promptInput` is the `window.prompt` result (`none` =
cancelled). An existing timer with time left is simply resumed; otherwise
the user is prompted and a fresh timer starts (invalid or non-positive
minutes default to 30). -/
def startPomodoro (pomodoroTimers : List (String × Timer)) (taskId : String) (promptInput : Option String) : List (String × Timer) :=
  let promptStart : List (String × Timer) :=
    match promptInput with
    | none => pomodoroTimers
    | some input =>
        let minutes := jsParseInt input
        let safeMinutes : Int :=
          match minutes with
          | some m => if 0 < m then m else 30
          | none => 30
        let durationSeconds := safeMinutes * 60
        alSet pomodoroTimers taskId
          { remainingSeconds := durationSeconds
            durationSeconds := durationSeconds
            isRunning := true }
  match alGet pomodoroTimers taskId with
  | some existing =>
      if 0 < existing.remainingSeconds then
        alSet pomodoroTimers taskId { existing with isRunning := true }
      else promptStart
  | none => promptStart

/-- One timer's update in the 1-second interval effect (lines 427-454):
a running timer loses one second, floored at 0, and stops running when it
hits 0; paused timers are untouched. -/
def tickTimer (timer : Timer) : Timer :=
  if timer.isRunning then
    let remainingSeconds := max (timer.remainingSeconds - 1) 0
    { timer with remainingSeconds := remainingSeconds, isRunning := decide (0 < remainingSeconds) }
  else timer

/-- The whole-map effect of one interval tick. -/
def tick (pomodoroTimers : List (String × Timer)) : List (String × Timer) :=
  pomodoroTimers.map (fun kv => (kv.1, tickTimer kv.2))

/-- `Math.round(num / den)` for `den > 0`, computed exactly on rationals
(round half towards positive infinity). -/
def jsMathRound (num den : Int) : Int :=
  Int.fdiv (2 * num + den) (2 * den)

/-- `getPomodoroProgressPercent` (lines 761-766). In the integer model
`Number(x) || d` only falls back on `0`. -/
def getPomodoroProgressPercent (remainingSeconds durationSeconds : Int) : Int :=
  let safeDuration := max 1 (if durationSeconds = 0 then DEFAULT_POMODORO_SECONDS else durationSeconds)
  let remaining := max 0 (min safeDuration remainingSeconds)
  let elapsed := safeDuration - remaining
  jsMathRound (elapsed * 100) safeDuration

/-- Modelled from the spec: the display progress formula the spec claims,
`round(100 * (duration - remaining) / max(1, duration))`, written
verbatim for comparison with `getPomodoroProgressPercent`. -/
def specProgressPercent (remainingSeconds durationSeconds : Int) : Int :=
  jsMathRound ((durationSeconds - remainingSeconds) * 100) (max 1 durationSeconds)

/-- C10 witness task: hidden but pending. -/
def c10Task : Task :=
  { id := "x", name := "x", description := "", priority := "High",
    category := "General", taskType := "Work", meetingTime := "",
    date := "2025-01-01", done := false, hidden := true, createdAt := 1 }

/-- C10 witness state: one hidden, pending task. -/
def c10State : CState :=
  { tasks := [c10Task]
    categories := ["General"]
    categoryColors := [("General", DEFAULT_CATEGORY_COLOR)]
    selectedDate := "2025-01-01"
    sortBy := "priority" }

/-- C4 counterexample input: a task submitted with `done: true` and
`hidden: false`. -/
def c4Input : JSValue :=
  .obj [("tasks", .arr [.obj [("id", .str "a"), ("name", .str "n"),
                              ("done", .bool true), ("hidden", .bool false)]])]

/-- The three category/color invariants of the spec, over the shared
planner-state components: every task category is a known category,
`"General"` is a category, and every category maps to a 6-hex color
(an absent entry reads as `""`, which is not a hex color). -/
def PlannerInv (tasks : List Task) (categories : List String) (colors : List (String × String)) : Prop :=
  (∀ t ∈ tasks, t.category ∈ categories) ∧
  "General" ∈ categories ∧
  (∀ c ∈ categories, isHexColor ((alGet colors c).getD "") = true)

/-- A small task constructor for concrete test states. -/
def mkTask (id nm pr cat tt mt dt : String) : Task :=
  { id := id, name := nm, description := "", priority := pr, category := cat,
    taskType := tt, meetingTime := mt, date := dt, done := false, hidden := false,
    createdAt := 1 }

/-- C7 scenario tasks: priorities Low/High/Medium named B/A/C. -/
def c7Scenario : List Task :=
  [mkTask "b" "B" "Low" "General" "Work" "" "2025-01-01",
   mkTask "a" "A" "High" "General" "Work" "" "2025-01-01",
   mkTask "c" "C" "Medium" "General" "Work" "" "2025-01-01"]

/-- C7 counterexample tasks: three Medium tasks whose pairwise
tie-breaks cycle — a Meeting named Z at 01:40, a Meeting named A at
03:20, and a non-Meeting named M. -/
def c7Cycle : List Task :=
  [mkTask "z" "Z" "Medium" "General" "Meeting" "01:40 AM" "2025-01-01",
   mkTask "a2" "A" "Medium" "General" "Meeting" "03:20 AM" "2025-01-01",
   mkTask "m" "M" "Medium" "General" "Work" "" "2025-01-01"]

/-- C6 counterexample state: a same-day task whose id is the empty
string (the falsy-id guard of `reorderTasksWithinDay` then refuses the
drag even though both ids are present among the day's tasks). -/
def c6State : CState :=
  { tasks := [mkTask "" "E" "High" "General" "Work" "" "2025-01-01",
              mkTask "x" "X" "Low" "General" "Work" "" "2025-01-01"]
    categories := ["General"]
    categoryColors := [("General", DEFAULT_CATEGORY_COLOR)]
    selectedDate := "2025-01-01"
    sortBy := "priority" }

/-- C3 counterexample input: a categories list without `"General"`. -/
def c3Input : JSValue := .obj [("categories", .arr [.str "Work"])]

/-- C1 counterexample input: a task whose `priority` is the empty array
`[]` — truthy, so `task.priority || "Medium"` keeps it, yet
`String([])` is `""`, which the second normalization pass turns into
`"Medium"`. -/
def c1Input : JSValue :=
  .obj [("tasks", .arr [.obj [("id", .str "a"), ("priority", .arr [])]])]

/-- A fixed injective uuid supply with non-empty values. -/
def uuidFix : Nat → String := fun i => "uuid-" ++ toString i

/-- The residual per-task coercion a second normalization pass applies to
an already-normalized task: blank strings get their defaults and a zero
`createdAt` gets the current time; everything else is untouched. -/
def recoerceTask (uuid : Nat → String) (now : Int) (today : String) (i : Nat) (t : Task) : Task :=
  { t with
    id := if t.id = "" then uuid i else t.id
    priority := if t.priority = "" then "Medium" else t.priority
    taskType := if t.taskType = "" then "Work" else t.taskType
    date := if t.date = "" then today else t.date
    createdAt := if t.createdAt = 0 then now else t.createdAt }

/-- C6 witness state: three same-day tasks with proper ids plus one task
on another day. -/
def c6GoodState : CState :=
  { tasks := [mkTask "x" "X" "High" "General" "Work" "" "2025-01-01",
              mkTask "y" "Y" "Low" "General" "Work" "" "2025-01-01",
              mkTask "w" "W" "Low" "General" "Work" "" "2025-01-02",
              mkTask "z" "Z" "Medium" "General" "Work" "" "2025-01-01"]
    categories := ["General"]
    categoryColors := [("General", DEFAULT_CATEGORY_COLOR)]
    selectedDate := "2025-01-01"
    sortBy := "priority" }

end Planner

namespace Planner

/-- Reading back the key just written by `alSet`. -/
theorem alGet_alSet_self {β : Type} (m : List (String × β)) (k : String) (v : β) :
    alGet (alSet m k v) k = some v := by
  unfold alSet
  split
  case isTrue h =>
    induction m with
    | nil => simp at h
    | cons p ps ih =>
        by_cases hp : p.1 = k
        · rw [List.map_cons, if_pos hp]
          unfold alGet
          rw [List.find?_cons_of_pos _ (by simp)]
          rfl
        · rw [List.find?_cons_of_neg _ (by simpa using hp)] at h
          unfold alGet at ih ⊢
          rw [List.map_cons, if_neg hp, List.find?_cons_of_neg _ (by simpa using hp)]
          exact ih h
  case isFalse h =>
    induction m with
    | nil =>
        unfold alGet
        rw [List.nil_append, List.find?_cons_of_pos _ (by simp)]
        rfl
    | cons p ps ih =>
        by_cases hp : p.1 = k
        · exact absurd (by rw [List.find?_cons_of_pos _ (by simpa using hp)]; rfl) h
        · rw [List.find?_cons_of_neg _ (by simpa using hp)] at h
          unfold alGet at ih ⊢
          rw [List.cons_append, List.find?_cons_of_neg _ (by simpa using hp)]
          exact ih h

/-- `alSet` leaves other keys alone. -/
theorem alGet_alSet_ne {β : Type} (m : List (String × β)) (k k' : String) (v : β)
    (hne : k' ≠ k) : alGet (alSet m k v) k' = alGet m k' := by
  unfold alSet
  split
  case isTrue h =>
    clear h
    induction m with
    | nil => simp
    | cons p ps ih =>
        unfold alGet at ih ⊢
        by_cases hp' : p.1 = k'
        · have hpk : p.1 ≠ k := by rw [hp']; exact hne
          rw [List.map_cons, if_neg hpk,
            List.find?_cons_of_pos _ (by simpa using hp'),
            List.find?_cons_of_pos _ (by simpa using hp')]
        · rw [List.map_cons]
          by_cases hp : p.1 = k
          · rw [if_pos hp, List.find?_cons_of_neg _ (by simpa using Ne.symm hne),
              List.find?_cons_of_neg _ (by simpa using hp')]
            exact ih
          · rw [if_neg hp, List.find?_cons_of_neg _ (by simpa using hp'),
              List.find?_cons_of_neg _ (by simpa using hp')]
            exact ih
  case isFalse h =>
    clear h
    induction m with
    | nil =>
        unfold alGet
        rw [List.nil_append, List.find?_cons_of_neg _ (by simpa using Ne.symm hne)]
    | cons p ps ih =>
        unfold alGet at ih ⊢
        rw [List.cons_append]
        by_cases hp' : p.1 = k'
        · rw [List.find?_cons_of_pos _ (by simpa using hp'),
            List.find?_cons_of_pos _ (by simpa using hp')]
        · rw [List.find?_cons_of_neg _ (by simpa using hp'),
            List.find?_cons_of_neg _ (by simpa using hp')]
          exact ih

/-- C9 counterexample input: a remaining time larger than the duration.
The code clamps the remaining time into `[0, duration]` and yields `0`,
while the spec formula yields `-100`. -/
theorem C9_progress_counterexample :
    getPomodoroProgressPercent 10 5 ≠ specProgressPercent 10 5 := by
  decide

/-- C9 (amended): the displayed percentage equals
`round(100 * (duration - remaining) / max(1, duration))` for every
in-range timer, i.e. whenever `0 ≤ remaining ≤ duration` and
`duration ≥ 1`; outside that range the code first substitutes the default
duration for `0` and clamps the remaining time. -/
theorem C9_progress_formula (r d : Int) (h0 : 0 ≤ r) (hrd : r ≤ d) (hd : 1 ≤ d) :
    getPomodoroProgressPercent r d = specProgressPercent r d := by
  have hne : d ≠ 0 := by omega
  simp only [getPomodoroProgressPercent, specProgressPercent, if_neg hne]
  have h1 : max 1 d = d := by omega
  have h2 : max 0 (min d r) = r := by omega
  rw [h1, h2]

/-- C9 witness: the theorem applied to the concrete timer 100s remaining
out of 300s. -/
theorem C9_progress_formula_holds_at_100_300 :
    getPomodoroProgressPercent 100 300 = specProgressPercent 100 300 :=
  C9_progress_formula 100 300 (by decide) (by decide) (by decide)

/-- C10: `toggleDone` on a hidden-but-pending task restores it to
visible-pending, and only a visible pending task is flipped to
done-and-hidden. Stated positionally over the task list, which
`toggleDone` maps pointwise. -/
theorem C10_toggleDone_restores (s : CState) (taskId : String) (i : Nat) (t t' : Task)
    (ht : s.tasks[i]? = some t) (ht' : (toggleDone s taskId).tasks[i]? = some t') :
    ((t.id = taskId ∧ t.hidden = true ∧ t.done = false) → t'.done = false ∧ t'.hidden = false)
    ∧ ((t'.done = true ∧ t'.hidden = true ∧ (t.done = false ∨ t.hidden = false)) →
        t.id = taskId ∧ t.done = false ∧ t.hidden = false) := by
  have hmap : t' = toggleDoneTask taskId t := by
    simp only [toggleDone, List.getElem?_map, ht, Option.map_some] at ht'
    exact (Option.some.inj ht').symm
  subst hmap
  unfold toggleDoneTask
  constructor
  · rintro ⟨h1, h2, h3⟩
    simp [h1, h2, h3]
  · intro h
    by_cases hid : t.id ≠ taskId
    · simp only [if_pos hid] at h
      rcases h with ⟨h1, h2, h3⟩
      rcases h3 with h3 | h3 <;> simp_all
    · simp only [if_neg hid] at h ⊢
      push_neg at hid
      by_cases hdh : t.done ∨ t.hidden
      · simp [if_pos hdh] at h
      · simp only [if_neg hdh] at h
        push_neg at hdh
        exact ⟨hid, by simpa using hdh.1, by simpa using hdh.2⟩

/-- C10 witness: toggling the hidden pending task of `c10State` restores
it to visible-pending. -/
theorem C10_toggleDone_restores_witness :
    (toggleDoneTask "x" c10Task).done = false ∧
    (toggleDoneTask "x" c10Task).hidden = false :=
  (C10_toggleDone_restores c10State "x" 0 c10Task
    (toggleDoneTask "x" c10Task) rfl rfl).1 ⟨rfl, rfl, rfl⟩

end Planner

namespace Planner

/-- C4 counterexample: the server normalizer coerces `done` and `hidden`
independently, so its output can contain a task with `done = true` and
`hidden = false`; normalization does not establish the invariant. -/
theorem C4_normalizer_counterexample :
    ((normalizeStateServer (fun _ => "id") 1 "2025-01-01" c4Input).tasks.any
      (fun t => t.done && !t.hidden)) = true := by
  decide

/-- C4 (amended): the client operations `toggleDone` and `hideTask`
preserve the invariant that `done = true` implies `hidden = true` on
every state already satisfying it (and the task they touch satisfies it
unconditionally); the server normalizer does not establish it. -/
theorem C4_doneHidden_preserved (s : CState) (taskId : String)
    (h : ∀ t ∈ s.tasks, t.done = true → t.hidden = true) :
    (∀ t ∈ (toggleDone s taskId).tasks, t.done = true → t.hidden = true) ∧
    (∀ t ∈ (hideTask s taskId).tasks, t.done = true → t.hidden = true) := by
  constructor
  · intro t ht
    simp only [toggleDone, List.mem_map] at ht
    obtain ⟨t0, ht0, rfl⟩ := ht
    unfold toggleDoneTask
    split
    · exact h t0 ht0
    · split <;> simp
  · intro t ht
    simp only [hideTask, List.mem_map] at ht
    obtain ⟨t0, ht0, rfl⟩ := ht
    split <;> simp_all [h t0 ht0]

/-- C4 witness: the invariant holds for `c10State` and is preserved by
toggling its task. -/
theorem C4_doneHidden_preserved_witness :
    (∀ t ∈ c10State.tasks, t.done = true → t.hidden = true) ∧
    (∀ t ∈ (toggleDone c10State "x").tasks, t.done = true → t.hidden = true) :=
  ⟨by decide, (C4_doneHidden_preserved c10State "x" (by decide)).1⟩

/-- C5 counterexample: starting an expired timer (`remaining = 0`) is not
a no-op — the code treats it like an absent timer, prompts (here the user
answers "10") and restarts it with the fresh duration. -/
theorem C5_start_expired_counterexample :
    startPomodoro [("t", ⟨0, 300, false⟩)] "t" (some "10") ≠ [("t", ⟨0, 300, false⟩)] := by
  decide

/-- C5 (amended): on a timer entry with `remaining = 0`, `start` behaves
like starting an absent timer: with the prompt cancelled it is a no-op,
and with prompt answer `s` it restarts the entry with the fresh duration
`60 * max(parsed minutes, defaulted to 30 when invalid or non-positive)`
and `isRunning = true`. -/
theorem C5_start_expired_restarts (m : List (String × Timer)) (taskId : String) (t : Timer)
    (ht : alGet m taskId = some t) (h0 : t.remainingSeconds = 0) :
    startPomodoro m taskId none = m ∧
    (∀ s : String,
      alGet (startPomodoro m taskId (some s)) taskId =
        some { remainingSeconds := 60 * (match jsParseInt s with
                                         | some mn => if 0 < mn then mn else 30
                                         | none => 30)
               durationSeconds := 60 * (match jsParseInt s with
                                        | some mn => if 0 < mn then mn else 30
                                        | none => 30)
               isRunning := true } ) := by
  have hnotpos : ¬ 0 < t.remainingSeconds := by omega
  constructor
  · simp only [startPomodoro, ht, if_neg hnotpos]
  · intro s
    simp only [startPomodoro, ht, if_neg hnotpos]
    rw [alGet_alSet_self]
    congr 1
    cases hp : jsParseInt s <;> simp [Int.mul_comm]

end Planner

namespace Planner

/-- C5 witness: the amended behaviour at the concrete expired entry
`(t, 0/300, paused)`: cancel keeps the map, answering "10" restarts with
600 seconds. -/
theorem C5_start_expired_restarts_witness :
    startPomodoro [("t", ⟨0, 300, false⟩)] "t" none = [("t", ⟨0, 300, false⟩)] ∧
    alGet (startPomodoro [("t", ⟨0, 300, false⟩)] "t" (some "10")) "t" = some ⟨600, 600, true⟩ := by
  have h := C5_start_expired_restarts [("t", ⟨0, 300, false⟩)] "t" ⟨0, 300, false⟩ (by decide) rfl
  exact ⟨h.1, (h.2 "10").trans (by decide)⟩

/-- Mapping the values of an association list commutes with lookup. -/
theorem alGet_mapVal {β γ : Type} (f : β → γ) (m : List (String × β)) (k : String) :
    alGet (m.map (fun kv => (kv.1, f kv.2))) k = (alGet m k).map f := by
  induction m with
  | nil => rfl
  | cons p ps ih =>
      unfold alGet at ih ⊢
      by_cases hp : p.1 = k
      · rw [List.map_cons, List.find?_cons_of_pos _ (by simpa using hp),
          List.find?_cons_of_pos _ (by simpa using hp)]
        rfl
      · rw [List.map_cons, List.find?_cons_of_neg _ (by simpa using hp),
          List.find?_cons_of_neg _ (by simpa using hp)]
        exact ih

/-- One tick keeps every remaining time non-negative. -/
theorem tick_nonneg (m : List (String × Timer))
    (h : ∀ kv ∈ m, 0 ≤ kv.2.remainingSeconds) :
    ∀ kv ∈ tick m, 0 ≤ kv.2.remainingSeconds := by
  intro kv hkv
  simp only [tick, List.mem_map] at hkv
  obtain ⟨kv0, hkv0, rfl⟩ := hkv
  simp only [tickTimer]
  split
  · simp only
    omega
  · exact h kv0 hkv0

set_option maxRecDepth 8000 in
/-- C8: one tick decrements every running timer by one second, floored at
0, stopping it exactly when it reaches 0; paused entries and absent
entries are untouched; and the concrete scenario: a 5-minute start
followed by 301 ticks ends expired at 0 with no intermediate step ever
negative. -/
theorem C8_tick_semantics :
    (∀ (m : List (String × Timer)) (taskId : String) (t : Timer),
        alGet m taskId = some t → t.isRunning = true →
        alGet (tick m) taskId =
          some { remainingSeconds := max (t.remainingSeconds - 1) 0
                 durationSeconds := t.durationSeconds
                 isRunning := decide (0 < max (t.remainingSeconds - 1) 0) }) ∧
    (∀ (m : List (String × Timer)) (taskId : String) (t : Timer),
        alGet m taskId = some t → t.isRunning = false →
        alGet (tick m) taskId = some t) ∧
    (∀ (m : List (String × Timer)) (taskId : String),
        alGet m taskId = none → alGet (tick m) taskId = none) ∧
    (alGet (tick^[301] (startPomodoro [] "t" (some "5"))) "t" = some ⟨0, 300, false⟩ ∧
     ∀ k : Nat,
       Option.all (fun t => decide (0 ≤ t.remainingSeconds))
         (alGet (tick^[k] (startPomodoro [] "t" (some "5"))) "t") = true) := by
  refine ⟨?_, ?_, ?_, ?_, ?_⟩
  · intro m taskId t ht hrun
    rw [tick, alGet_mapVal, ht]
    simp [tickTimer, hrun]
  · intro m taskId t ht hrun
    rw [tick, alGet_mapVal, ht]
    simp [tickTimer, hrun]
  · intro m taskId ht
    rw [tick, alGet_mapVal, ht]
    rfl
  · decide
  · intro k
    have hinv : ∀ kv ∈ tick^[k] (startPomodoro [] "t" (some "5")), 0 ≤ kv.2.remainingSeconds := by
      induction k with
      | zero => decide
      | succ n ih =>
          rw [Function.iterate_succ_apply']
          exact tick_nonneg _ ih
    cases halg : alGet (tick^[k] (startPomodoro [] "t" (some "5"))) "t" with
    | none => rfl
    | some t =>
        have hmem : ("t", t) ∈ tick^[k] (startPomodoro [] "t" (some "5")) := by
          unfold alGet at halg
          cases hfind : List.find? (fun p => p.1 = "t") (tick^[k] (startPomodoro [] "t" (some "5"))) with
          | none => rw [hfind] at halg; simp at halg
          | some p =>
              rw [hfind] at halg
              have hp := List.mem_of_find?_eq_some hfind
              have hkey : p.1 = "t" := by
                have := List.find?_some hfind
                simpa using this
              have hval : p.2 = t := by simpa using halg
              have hpair : p = ("t", t) := Prod.ext hkey hval
              exact hpair ▸ hp
        simpa using hinv ("t", t) hmem

/-- C8 witness: one tick on a running 5s timer leaves 4s, still running. -/
theorem C8_tick_semantics_witness :
    alGet (tick [("x", ⟨5, 10, true⟩)]) "x" = some ⟨4, 10, true⟩ := by
  have h := C8_tick_semantics.1 [("x", ⟨5, 10, true⟩)] "x" ⟨5, 10, true⟩ (by decide) rfl
  exact h.trans (by decide)

end Planner

namespace Planner

/-- A successful association-list lookup is a member. -/
theorem alGet_mem {β : Type} {m : List (String × β)} {k : String} {v : β}
    (h : alGet m k = some v) : (k, v) ∈ m := by
  unfold alGet at h
  cases hfind : List.find? (fun p => p.1 = k) m with
  | none => rw [hfind] at h; simp at h
  | some p =>
      rw [hfind] at h
      have hkey : p.1 = k := by simpa using List.find?_some hfind
      have hval : p.2 = v := by simpa using h
      have hpv : p = (k, v) := Prod.ext hkey hval
      exact hpv ▸ List.mem_of_find?_eq_some hfind

/-- `alDelete` leaves other keys alone. -/
theorem alGet_alDelete_ne {β : Type} (m : List (String × β)) (k k' : String)
    (hne : k' ≠ k) : alGet (alDelete m k) k' = alGet m k' := by
  induction m with
  | nil => rfl
  | cons p ps ih =>
      unfold alDelete at ih ⊢
      unfold alGet at ih ⊢
      by_cases hp : p.1 = k
      · rw [List.filter_cons_of_neg (by simpa using hp),
          List.find?_cons_of_neg _ (by simp [hp, Ne.symm hne])]
        exact ih
      · rw [List.filter_cons_of_pos (by simpa using hp)]
        by_cases hp' : p.1 = k'
        · rw [List.find?_cons_of_pos _ (by simpa using hp'),
            List.find?_cons_of_pos _ (by simpa using hp')]
        · rw [List.find?_cons_of_neg _ (by simpa using hp'),
            List.find?_cons_of_neg _ (by simpa using hp')]
          exact ih

/-- Members of `alSet m k v` are the new pair or old members. -/
theorem mem_alSet {β : Type} {m : List (String × β)} {k : String} {v : β} {kv : String × β}
    (h : kv ∈ alSet m k v) : kv = (k, v) ∨ kv ∈ m := by
  unfold alSet at h
  split at h
  · obtain ⟨kv0, hkv0, hf⟩ := List.mem_map.mp h
    by_cases hp : kv0.1 = k
    · left; rw [if_pos hp] at hf; exact hf.symm
    · right; rw [if_neg hp] at hf; exact hf ▸ hkv0
  · rcases List.mem_append.mp h with h1 | h1
    · right; exact h1
    · left; simpa using h1

/-- Membership in the dedup worker: in the input and not already seen. -/
theorem mem_dedupKeepFirstAux :
    ∀ (l seen : List String) (a : String),
      a ∈ dedupKeepFirstAux seen l ↔ a ∈ l ∧ a ∉ seen := by
  intro l
  induction l with
  | nil => intro seen a; simp [dedupKeepFirstAux]
  | cons x xs ih =>
      intro seen a
      rw [dedupKeepFirstAux]
      split
      next hx =>
        rw [ih]
        constructor
        · rintro ⟨h1, h2⟩
          exact ⟨List.mem_cons_of_mem x h1, h2⟩
        · rintro ⟨h1, h2⟩
          refine ⟨?_, h2⟩
          rcases List.mem_cons.mp h1 with he | he
          · exact absurd (by simpa using hx) (he ▸ h2)
          · exact he
      next hx =>
        constructor
        · intro h
          rcases List.mem_cons.mp h with he | he
          · subst he
            exact ⟨List.mem_cons_self _ _, by simpa using hx⟩
          · have := (ih (x :: seen) a).mp he
            exact ⟨List.mem_cons_of_mem x this.1,
              fun hc => this.2 (List.mem_cons_of_mem x hc)⟩
        · rintro ⟨h1, h2⟩
          rcases List.mem_cons.mp h1 with he | he
          · exact he ▸ List.mem_cons_self _ _
          · by_cases hax : a = x
            · exact hax ▸ List.mem_cons_self _ _
            · exact List.mem_cons_of_mem x ((ih (x :: seen) a).mpr
                ⟨he, fun hc => (List.mem_cons.mp hc).elim hax h2⟩)

/-- Membership is invariant under `Set`-style deduplication. -/
theorem mem_dedupKeepFirst (l : List String) (a : String) :
    a ∈ dedupKeepFirst l ↔ a ∈ l := by
  rw [dedupKeepFirst, mem_dedupKeepFirstAux]
  simp

/-- The `unshift("General")` step guarantees membership. -/
theorem general_mem_ifUnshift (l : List String) :
    "General" ∈ (if l.contains "General" then l else "General" :: l) := by
  by_cases h : l.contains "General" = true
  · rw [if_pos h]
    simpa using h
  · rw [if_neg h]
    exact List.mem_cons_self _ _

/-- Members after the `unshift("General")` step. -/
theorem mem_of_mem_ifUnshift {l : List String} {c : String}
    (hc : c ∈ (if l.contains "General" then l else "General" :: l)) :
    c = "General" ∨ c ∈ l := by
  split at hc
  · right; exact hc
  · rcases List.mem_cons.mp hc with h | h
    · left; exact h
    · right; exact h

/-- `"General"` is always among the normalized categories. -/
theorem normCategories_general (payload : JSValue) : "General" ∈ normCategories payload := by
  simp only [normCategories]
  exact general_mem_ifUnshift _

/-- Normalized categories are never the empty string. -/
theorem normCategories_ne (payload : JSValue) : ∀ c ∈ normCategories payload, c ≠ "" := by
  intro c hc
  simp only [normCategories] at hc
  rcases mem_of_mem_ifUnshift hc with h | h
  · simp [h]
  · have := (mem_dedupKeepFirst _ _).mp h
    simpa using (List.mem_filter.mp this).2

end Planner

namespace Planner

/-- `alSet` with a hex value keeps all stored colors hex. -/
theorem alSet_hexVals {m : List (String × String)} {k v : String}
    (hm : ∀ kv ∈ m, isHexColor kv.2 = true) (hv : isHexColor v = true) :
    ∀ kv ∈ alSet m k v, isHexColor kv.2 = true := by
  intro kv hkv
  rcases mem_alSet hkv with h | h
  · rw [h]; exact hv
  · exact hm kv h

/-- All values produced by the raw-colors pass of the normalizer are hex. -/
theorem colorsFold_hexVals :
    ∀ (pairs : List (String × JSValue)) (m0 : List (String × String)),
      (∀ kv ∈ m0, isHexColor kv.2 = true) →
      ∀ kv ∈ pairs.foldl
          (fun m kv =>
            let category := jsTrim kv.1
            let color := jsTrim (strOr (some kv.2) (.str ""))
            if category ≠ "" ∧ isHexColor color then alSet m category color else m)
          m0,
        isHexColor kv.2 = true := by
  intro pairs
  induction pairs with
  | nil => intro m0 hm0; simpa using hm0
  | cons p ps ih =>
      intro m0 hm0
      rw [List.foldl_cons]
      apply ih
      dsimp only
      split
      next hcond => exact alSet_hexVals hm0 hcond.2
      next hcond => exact hm0

/-- One step of the default-color pass keeps all stored colors hex. -/
theorem defaultStep_hexVals {m : List (String × String)} {c : String}
    (hm : ∀ kv ∈ m, isHexColor kv.2 = true) :
    ∀ kv ∈ (if ((alGet m c).getD "") = "" then alSet m c DEFAULT_CATEGORY_COLOR else m),
      isHexColor kv.2 = true := by
  split
  · exact alSet_hexVals hm (by decide)
  · exact hm

/-- The default-color pass never un-covers a category that already has a
hex color. -/
theorem defaultFold_preserves :
    ∀ (cs : List String) (m : List (String × String)) (c : String),
      isHexColor ((alGet m c).getD "") = true →
      isHexColor
        ((alGet (cs.foldl (fun m c => if ((alGet m c).getD "") = "" then alSet m c DEFAULT_CATEGORY_COLOR else m) m) c).getD "")
        = true := by
  intro cs
  induction cs with
  | nil => intro m c h; simpa using h
  | cons c0 rest ih =>
      intro m c h
      rw [List.foldl_cons]
      apply ih
      split
      next h0 =>
        by_cases hc : c = c0
        · rw [hc, alGet_alSet_self]
          decide
        · rw [alGet_alSet_ne _ _ _ _ hc]
          exact h
      next h0 => exact h

/-- After the default pass, every listed category reads back a hex color. -/
theorem defaultFold_covers :
    ∀ (cs : List String) (m : List (String × String)),
      (∀ kv ∈ m, isHexColor kv.2 = true) →
      ∀ c ∈ cs,
        isHexColor
          ((alGet (cs.foldl (fun m c => if ((alGet m c).getD "") = "" then alSet m c DEFAULT_CATEGORY_COLOR else m) m) c).getD "")
          = true := by
  intro cs
  induction cs with
  | nil => intro m hm c hc; simp at hc
  | cons c0 rest ih =>
      intro m hm c hc
      rw [List.foldl_cons]
      rcases List.mem_cons.mp hc with h | h
      · subst h
        apply defaultFold_preserves
        split
        next h0 =>
          rw [alGet_alSet_self]
          decide
        next h0 =>
          cases halg : alGet m c with
          | none => rw [halg] at h0; simp at h0
          | some v => simpa using hm (c, v) (alGet_mem halg)
      · exact ih _ (defaultStep_hexVals hm) c h

/-- Every normalized category reads back a 6-hex color from the
normalized color map. -/
theorem normColors_covers (payload : JSValue) (categories : List String) :
    ∀ c ∈ categories, isHexColor ((alGet (normColors payload categories) c).getD "") = true := by
  intro c hc
  simp only [normColors]
  exact defaultFold_covers _ _ (colorsFold_hexVals _ _ (by simp)) c hc

end Planner

namespace Planner

/-- Every element produced by an indexed map is a value of the function
at some member of the input. -/
theorem mem_mapIdxFrom {α β : Type} (f : Nat → α → β) :
    ∀ (i : Nat) (l : List α) (b : β), b ∈ mapIdxFrom f i l → ∃ j a, a ∈ l ∧ b = f j a := by
  intro i l
  induction l generalizing i with
  | nil => intro b hb; simp [mapIdxFrom] at hb
  | cons x xs ih =>
      intro b hb
      rw [mapIdxFrom] at hb
      rcases List.mem_cons.mp hb with h | h
      · exact ⟨i, x, List.mem_cons_self _ _, h⟩
      · obtain ⟨j, a, ha, hb⟩ := ih (i + 1) b h
        exact ⟨j, a, List.mem_cons_of_mem x ha, hb⟩

/-- The coerced category of a normalized task is a normalized category. -/
theorem normTask_category_mem (uuid : Nat → String) (now : Int) (today : String)
    (categories : List String) (i : Nat) (task : JSValue)
    (hgen : "General" ∈ categories) (hne : ∀ c ∈ categories, c ≠ "") :
    (normTask uuid now today categories i task).category ∈ categories := by
  simp only [normTask]
  split
  next h =>
    have hmem : strOr (jsField task "category") (.str "") ∈ categories := by simpa using h
    cases hf : jsField task "category" with
    | none =>
        exfalso
        rw [hf] at hmem
        exact (hne _ hmem) rfl
    | some v =>
        rw [hf] at hmem
        by_cases ht : jsTruthy v = true
        · have hv : strOr (some v) (.str "") = jsToString v := by
            simp [strOr, orDefault, ht]
          rw [hv] at hmem
          simpa [jsToStringU] using hmem
        · exfalso
          have hv : strOr (some v) (.str "") = "" := by
            simp [strOr, orDefault, ht]
            rfl
          rw [hv] at hmem
          exact (hne _ hmem) rfl
  next h => exact hgen

/-- C2 counterexample: `addCategory` stores whatever color string it is
handed, so on a state satisfying the invariants, adding `"Blue"` with the
non-hex color `"red"` breaks the color invariant. -/
theorem C2_addCategory_counterexample :
    PlannerInv c10State.tasks c10State.categories c10State.categoryColors ∧
    ¬ PlannerInv (addCategory c10State "Blue" "red").tasks
        (addCategory c10State "Blue" "red").categories
        (addCategory c10State "Blue" "red").categoryColors := by
  constructor
  · unfold PlannerInv
    decide
  · unfold PlannerInv
    decide

/-- C2 (amended): the server normalizer always establishes the three
invariants (task categories are known, `"General"` is present, every
category reads back a 6-hex color); `deleteCategory` preserves them
unconditionally, and `addCategory` preserves them whenever the supplied
color is itself a 6-hex color (the UI color picker only produces such
values, but the function itself accepts any string). -/
theorem C2_invariants :
    (∀ (uuid : Nat → String) (now : Int) (today : String) (x : JSValue),
        PlannerInv (normalizeStateServer uuid now today x).tasks
          (normalizeStateServer uuid now today x).categories
          (normalizeStateServer uuid now today x).categoryColors) ∧
    (∀ (s : CState) (name color : String),
        PlannerInv s.tasks s.categories s.categoryColors →
        isHexColor color = true →
        PlannerInv (addCategory s name color).tasks (addCategory s name color).categories
          (addCategory s name color).categoryColors) ∧
    (∀ (s : CState) (name : String),
        PlannerInv s.tasks s.categories s.categoryColors →
        PlannerInv (deleteCategory s name).tasks (deleteCategory s name).categories
          (deleteCategory s name).categoryColors) := by
  refine ⟨?_, ?_, ?_⟩
  · intro uuid now today x
    simp only [normalizeStateServer]
    refine ⟨?_, normCategories_general x, normColors_covers x _⟩
    intro t ht
    obtain ⟨j, a, _, rfl⟩ := mem_mapIdxFrom _ _ _ _ ht
    exact normTask_category_mem uuid now today _ j a (normCategories_general x) (normCategories_ne x)
  · intro s name color hinv hcolor
    obtain ⟨htasks, hgen, hcols⟩ := hinv
    simp only [addCategory, jsSortBy]
    split
    next => exact ⟨htasks, hgen, hcols⟩
    next =>
      split
      next => exact ⟨htasks, hgen, hcols⟩
      next hany =>
        have hperm := List.perm_insertionSort
          (fun a b => localeCmp a b ≤ 0) (s.categories ++ [jsTrim name])
        have hname_notin : jsTrim name ∉ s.categories := by
          intro hc
          exact hany (List.any_eq_true.mpr ⟨jsTrim name, hc, by simp⟩)
        refine ⟨?_, ?_, ?_⟩
        · intro t ht
          exact hperm.mem_iff.mpr (List.mem_append_left _ (htasks t ht))
        · exact hperm.mem_iff.mpr (List.mem_append_left _ hgen)
        · intro c hc
          have hc' : c ∈ s.categories ++ [jsTrim name] := hperm.mem_iff.mp hc
          rcases List.mem_append.mp hc' with h | h
          · have hcne : c ≠ jsTrim name := fun he => hname_notin (he ▸ h)
            rw [alGet_alSet_ne _ _ _ _ hcne]
            exact hcols c h
          · have : c = jsTrim name := by simpa using h
            rw [this, alGet_alSet_self]
            simpa using hcolor
  · intro s name hinv
    obtain ⟨htasks, hgen, hcols⟩ := hinv
    simp only [deleteCategory]
    split
    next => exact ⟨htasks, hgen, hcols⟩
    next hng =>
      have hgen' : "General" ∈ s.categories.filter (fun item => item ≠ name) :=
        List.mem_filter.mpr ⟨hgen, by simpa using fun h => hng h.symm⟩
      have hcont : (s.categories.filter (fun item => item ≠ name)).contains "General" = true := by
        simpa using hgen'
      rw [if_pos hcont]
      refine ⟨?_, hgen', ?_⟩
      · intro t ht
        obtain ⟨t0, ht0, rfl⟩ := List.mem_map.mp ht
        split
        next => exact hgen'
        next hcat =>
          exact List.mem_filter.mpr ⟨htasks t0 ht0, by simpa using hcat⟩
      · intro c hc
        have hcc := List.mem_filter.mp hc
        have hcne : c ≠ name := by simpa using hcc.2
        rw [alGet_alDelete_ne _ _ _ hcne]
        exact hcols c hcc.1

/-- C2 witness: the amended `addCategory` preservation applied at
`c10State` with the hex color `"#112233"`. -/
theorem C2_invariants_witness :
    (PlannerInv c10State.tasks c10State.categories c10State.categoryColors ∧
     isHexColor "#112233" = true) ∧
    PlannerInv (addCategory c10State "Blue" "#112233").tasks
      (addCategory c10State "Blue" "#112233").categories
      (addCategory c10State "Blue" "#112233").categoryColors :=
  ⟨⟨by unfold PlannerInv; decide, by decide⟩,
   C2_invariants.2.1 c10State "Blue" "#112233" (by unfold PlannerInv; decide) (by decide)⟩

end Planner

namespace Planner

/-- C3 counterexample: on `{categories: ["Work"]}` the server normalizer
forces `"General"` into the list while the client normalizer does not, so
the two `normalizeState` functions are not equivalent. -/
theorem C3_not_equivalent :
    (normalizeStateServer uuidFix 1 "2025-01-01" c3Input).categories ≠
    (normalizeStateClient "2025-01-01" c3Input).categories := by
  decide

/-- C3 (amended): the two normalizers are not equivalent in general (the
client one does not force `"General"`, passes tasks through uncoerced,
and additionally produces `sortBy` and `pomodoroTimers`, which the server
output lacks); they do agree on the `categories` component whenever the
client's normalized categories contain `"General"`. -/
theorem C3_categories_agree (x : JSValue) (uuid : Nat → String) (now : Int) (today : String)
    (h : "General" ∈ (normalizeStateClient today x).categories) :
    (normalizeStateServer uuid now today x).categories =
      (normalizeStateClient today x).categories := by
  by_cases hobj : jsTruthy x ∧ isObjectLike x
  case neg =>
    have hfield : jsField x "categories" = none := by
      cases x
      case obj fs => exact absurd ⟨rfl, rfl⟩ hobj
      all_goals rfl
    have hclient : (normalizeStateClient today x).categories = ["General"] := by
      simp only [normalizeStateClient, if_pos hobj]
      rfl
    have hserver : (normalizeStateServer uuid now today x).categories = ["General"] := by
      simp only [normalizeStateServer, normCategories, hfield]
      decide
    rw [hclient, hserver]
  case pos =>
    have hcne : ¬ ¬ (jsTruthy x ∧ isObjectLike x) := not_not_intro hobj
    cases hf : jsField x "categories" with
    | none =>
        have hclient : (normalizeStateClient today x).categories = ["General"] := by
          simp only [normalizeStateClient, if_neg hcne, hf]
          rfl
        have hserver : (normalizeStateServer uuid now today x).categories = ["General"] := by
          simp only [normalizeStateServer, normCategories, hf]
          decide
        rw [hclient, hserver]
    | some v =>
        cases v with
        | arr xs =>
            have hclient : (normalizeStateClient today x).categories =
                (if (dedupKeepFirst ((xs.map (fun x => jsTrim (strOr (some x) (.str "")))).filter (fun s => s ≠ ""))).length ≠ 0 then
                  dedupKeepFirst ((xs.map (fun x => jsTrim (strOr (some x) (.str "")))).filter (fun s => s ≠ ""))
                else ["General"]) := by
              simp only [normalizeStateClient, if_neg hcne, hf, createDefaultState]
            rw [hclient] at h ⊢
            by_cases hlen :
                (dedupKeepFirst ((xs.map (fun x => jsTrim (strOr (some x) (.str "")))).filter (fun s => s ≠ ""))).length ≠ 0
            · rw [if_pos hlen] at h ⊢
              have hcont :
                  (dedupKeepFirst ((xs.map (fun x => jsTrim (strOr (some x) (.str "")))).filter (fun s => s ≠ ""))).contains "General" = true := by
                simpa using h
              simp only [normalizeStateServer, normCategories, hf, hcont, if_pos]
            · rw [if_neg hlen] at h ⊢
              have hnil :
                  dedupKeepFirst ((xs.map (fun x => jsTrim (strOr (some x) (.str "")))).filter (fun s => s ≠ "")) = [] := by
                rcases List.eq_nil_or_concat (dedupKeepFirst ((xs.map (fun x => jsTrim (strOr (some x) (.str "")))).filter (fun s => s ≠ ""))) with he | ⟨l2, a, he⟩
                · exact he
                · exfalso; apply hlen; rw [he]; simp
              simp only [normalizeStateServer, normCategories, hf, hnil]
              decide
        | null =>
            have hclient : (normalizeStateClient today x).categories = ["General"] := by
              simp only [normalizeStateClient, if_neg hcne, hf]
              rfl
            have hserver : (normalizeStateServer uuid now today x).categories = ["General"] := by
              simp only [normalizeStateServer, normCategories, hf]
              decide
            rw [hclient, hserver]
        | bool b =>
            have hclient : (normalizeStateClient today x).categories = ["General"] := by
              simp only [normalizeStateClient, if_neg hcne, hf]
              rfl
            have hserver : (normalizeStateServer uuid now today x).categories = ["General"] := by
              simp only [normalizeStateServer, normCategories, hf]
              decide
            rw [hclient, hserver]
        | num n =>
            have hclient : (normalizeStateClient today x).categories = ["General"] := by
              simp only [normalizeStateClient, if_neg hcne, hf]
              rfl
            have hserver : (normalizeStateServer uuid now today x).categories = ["General"] := by
              simp only [normalizeStateServer, normCategories, hf]
              decide
            rw [hclient, hserver]
        | str s =>
            have hclient : (normalizeStateClient today x).categories = ["General"] := by
              simp only [normalizeStateClient, if_neg hcne, hf]
              rfl
            have hserver : (normalizeStateServer uuid now today x).categories = ["General"] := by
              simp only [normalizeStateServer, normCategories, hf]
              decide
            rw [hclient, hserver]
        | obj fs =>
            have hclient : (normalizeStateClient today x).categories = ["General"] := by
              simp only [normalizeStateClient, if_neg hcne, hf]
              rfl
            have hserver : (normalizeStateServer uuid now today x).categories = ["General"] := by
              simp only [normalizeStateServer, normCategories, hf]
              decide
            rw [hclient, hserver]

/-- C3 witness: a categories list that already contains `"General"`, on
which the two normalizers agree. -/
theorem C3_categories_agree_witness :
    "General" ∈ (normalizeStateClient "2025-01-01"
      (.obj [("categories", .arr [.str "General", .str "X"])])).categories ∧
    (normalizeStateServer uuidFix 1 "2025-01-01"
      (.obj [("categories", .arr [.str "General", .str "X"])])).categories =
    (normalizeStateClient "2025-01-01"
      (.obj [("categories", .arr [.str "General", .str "X"])])).categories :=
  ⟨by decide, C3_categories_agree _ uuidFix 1 "2025-01-01" (by decide)⟩

end Planner

namespace Planner

/-- `findIndex` misses exactly when no element matches. -/
theorem jsFindIndex_eq_none {α : Type} (p : α → Bool) :
    ∀ (l : List α), (∀ x ∈ l, p x = false) → jsFindIndex p l = none := by
  intro l
  induction l with
  | nil => intro _; rfl
  | cons x xs ih =>
      intro h
      rw [jsFindIndex, h x (List.mem_cons_self _ _)]
      simp only [Bool.false_eq_true, if_false]
      rw [ih (fun y hy => h y (List.mem_cons_of_mem x hy))]
      rfl

/-- A found index is in range. -/
theorem jsFindIndex_lt_length {α : Type} (p : α → Bool) :
    ∀ (l : List α) (i : Nat), jsFindIndex p l = some i → i < l.length := by
  intro l
  induction l with
  | nil => intro i h; simp [jsFindIndex] at h
  | cons x xs ih =>
      intro i h
      rw [jsFindIndex] at h
      split at h
      · simp only [Option.some.injEq] at h
        rw [← h]
        simp
      · cases hr : jsFindIndex p xs with
        | none => rw [hr] at h; simp at h
        | some j =>
            rw [hr] at h
            have h2 : j + 1 = i := by simpa using h
            have := ih j hr
            rw [← h2]
            simpa using Nat.succ_lt_succ this

/-- `findIndex` succeeds on any list containing a match. -/
theorem jsFindIndex_isSome {α : Type} (p : α → Bool) :
    ∀ (l : List α), (∃ x ∈ l, p x = true) → (jsFindIndex p l).isSome = true := by
  intro l
  induction l with
  | nil => rintro ⟨x, hx, _⟩; simp at hx
  | cons y ys ih =>
      rintro ⟨x, hx, hpx⟩
      rw [jsFindIndex]
      by_cases hy : p y = true
      · rw [if_pos hy]; rfl
      · rw [if_neg hy]
        rcases List.mem_cons.mp hx with he | he
        · exact absurd (he ▸ hpx) hy
        · have := ih ⟨x, he, hpx⟩
          cases hr : jsFindIndex p ys with
          | none => rw [hr] at this; simp at this
          | some j => rfl

/-- `splice(i, 0, x)` inserts the element, as a multiset. -/
theorem perm_jsInsertAt {α : Type} (a : α) :
    ∀ (l : List α) (i : Nat), (jsInsertAt a l i).Perm (a :: l) := by
  intro l
  induction l with
  | nil => intro i; cases i <;> exact List.Perm.refl _
  | cons x xs ih =>
      intro i
      cases i with
      | zero => exact List.Perm.refl _
      | succ j =>
          rw [jsInsertAt]
          exact (List.Perm.cons x (ih j)).trans (List.Perm.swap a x xs)

/-- `splice(i, 1)` removes exactly the indexed element, as a multiset. -/
theorem perm_jsRemoveAt {α : Type} :
    ∀ (l : List α) (i : Nat) (x : α), l[i]? = some x → l.Perm (x :: jsRemoveAt l i) := by
  intro l
  induction l with
  | nil => intro i x h; simp at h
  | cons y ys ih =>
      intro i x h
      cases i with
      | zero =>
          simp only [List.getElem?_cons_zero, Option.some.injEq] at h
          rw [jsRemoveAt, h]
      | succ j =>
          simp only [List.getElem?_cons_succ] at h
          rw [jsRemoveAt]
          exact (List.Perm.cons y (ih j x h)).trans (List.Perm.swap x y _)

/-- Mapping a function that ignores the index out of an indexed map. -/
theorem map_mapIdxFrom {α β γ : Type} (f : Nat → α → β) (g : β → γ) (g' : α → γ)
    (hg : ∀ j a, g (f j a) = g' a) :
    ∀ (i : Nat) (l : List α), (mapIdxFrom f i l).map g = l.map g' := by
  intro i l
  induction l generalizing i with
  | nil => rfl
  | cons x xs ih =>
      rw [mapIdxFrom, List.map_cons, List.map_cons, hg, ih]

/-- Indexed map preserves length. -/
theorem length_mapIdxFrom {α β : Type} (f : Nat → α → β) :
    ∀ (i : Nat) (l : List α), (mapIdxFrom f i l).length = l.length := by
  intro i l
  induction l generalizing i with
  | nil => rfl
  | cons x xs ih => rw [mapIdxFrom, List.length_cons, List.length_cons, ih]

/-- The reindexing pass: the `i`-th task gets `order = i`. -/
theorem mapIdxFrom_get_order :
    ∀ (l : List Task) (s i : Nat)
      (hi : i < (mapIdxFrom (fun j (t : Task) => { t with order := some (Int.ofNat j) }) s l).length),
      ((mapIdxFrom (fun j (t : Task) => { t with order := some (Int.ofNat j) }) s l).get ⟨i, hi⟩).order
        = some (Int.ofNat (s + i)) := by
  intro l
  induction l with
  | nil => intro s i hi; simp [mapIdxFrom] at hi
  | cons x xs ih =>
      intro s i hi
      cases i with
      | zero => rfl
      | succ j =>
          have hj : j < (mapIdxFrom (fun j (t : Task) => { t with order := some (Int.ofNat j) }) (s + 1) xs).length := by
            rw [length_mapIdxFrom] at hi ⊢
            simp only [List.length_cons] at hi
            omega
          have := ih (s + 1) j hj
          simp only [mapIdxFrom, List.get_cons_succ]
          rw [this]
          have harith : s + 1 + j = s + (j + 1) := by omega
          rw [harith]

end Planner

namespace Planner

/-- Core of the reorder proof: removing the dragged task, reinserting it
and renumbering yields the same ids as a multiset, contiguous 0-based
`order` values, and only same-day tasks. -/
theorem reorder_core (sameDate ordered : List Task) (sel : String)
    (reindexed : List Task) (ia ib : Nat) (moved : Task)
    (hre : reindexed = jsMapIdx (fun i (t : Task) => { t with order := some (Int.ofNat i) })
        (jsInsertAt moved (jsRemoveAt ordered ia) ib))
    (hperm : ordered.Perm sameDate)
    (hdate : ∀ t ∈ sameDate, t.date = sel)
    (hget : ordered[ia]? = some moved) :
    (reindexed.map (fun t => t.id)).Perm (sameDate.map (fun t => t.id)) ∧
    (∀ (i : Nat) (t : Task), reindexed[i]? = some t → t.order = some (Int.ofNat i)) ∧
    (∀ t ∈ reindexed, t.date = sel) := by
  subst hre
  have hrm : ordered.Perm (moved :: jsRemoveAt ordered ia) := perm_jsRemoveAt _ _ _ hget
  have hins : (jsInsertAt moved (jsRemoveAt ordered ia) ib).Perm ordered :=
    (perm_jsInsertAt moved (jsRemoveAt ordered ia) ib).trans hrm.symm
  refine ⟨?_, ?_, ?_⟩
  · have hmapeq :
        (jsMapIdx (fun i (t : Task) => { t with order := some (Int.ofNat i) })
            (jsInsertAt moved (jsRemoveAt ordered ia) ib)).map (fun t => t.id) =
        (jsInsertAt moved (jsRemoveAt ordered ia) ib).map (fun t => t.id) := by
      rw [jsMapIdx]
      exact map_mapIdxFrom (fun i (t : Task) => { t with order := some (Int.ofNat i) })
        (fun t => t.id) (fun t => t.id) (fun j a => rfl) 0 _
    rw [hmapeq]
    exact (hins.trans hperm).map _
  · intro i t h
    have hlen : i < (jsMapIdx (fun i (t : Task) => { t with order := some (Int.ofNat i) })
        (jsInsertAt moved (jsRemoveAt ordered ia) ib)).length := by
      by_contra h2
      rw [List.getElem?_eq_none (Nat.le_of_not_lt h2)] at h
      exact Option.noConfusion h
    have hval : (jsMapIdx (fun i (t : Task) => { t with order := some (Int.ofNat i) })
        (jsInsertAt moved (jsRemoveAt ordered ia) ib)).get ⟨i, hlen⟩ = t := by
      have := List.getElem?_eq_getElem hlen
      rw [this] at h
      simpa using h
    rw [← hval]
    have := mapIdxFrom_get_order (jsInsertAt moved (jsRemoveAt ordered ia) ib) 0 i
      (by simpa [jsMapIdx] using hlen)
    simpa [jsMapIdx] using this
  · intro t ht
    simp only [jsMapIdx] at ht
    obtain ⟨j, x, hx, rfl⟩ := mem_mapIdxFrom _ _ _ _ ht
    have hxo : x ∈ ordered := by
      rcases List.mem_cons.mp ((perm_jsInsertAt moved (jsRemoveAt ordered ia) ib).mem_iff.mp hx) with he | he
      · exact he ▸ hrm.symm.subset (List.mem_cons_self _ _)
      · exact hrm.symm.subset (List.mem_cons_of_mem _ he)
    exact hdate x (hperm.subset hxo)

end Planner

namespace Planner

/-- C6 counterexample: in `c6State` the dragged task's id is the empty
string; it is distinct from `"x"` and both ids are among the selected
day's tasks, yet the falsy-id guard makes `reorderTasksWithinDay` return
the state unchanged, so `sortBy` is not switched to `"manual"` as the
claim requires. -/
theorem C6_reorder_counterexample :
    ("" : String) ≠ "x" ∧
    "" ∈ (c6State.tasks.filter (fun t => t.date = c6State.selectedDate)).map (fun t => t.id) ∧
    "x" ∈ (c6State.tasks.filter (fun t => t.date = c6State.selectedDate)).map (fun t => t.id) ∧
    (reorderTasksWithinDay c6State "" "x").sortBy ≠ "manual" := by
  refine ⟨by decide, by decide, by decide, by decide⟩

/-- C6 (amended): when both ids are non-empty, distinct and present among
the selected day's tasks, `reorder` permutes the same-day ids, renumbers
them with unique contiguous 0-based `order` values, leaves every
other-day task unchanged and forces `sortBy = "manual"`; when either id
is empty (ids of real tasks are never empty, but the guard tests
falsiness), the ids are equal, or either id is absent, the state is
returned unchanged. -/
theorem C6_reorder_spec :
    ∀ (s : CState) (a b : String),
      (a ≠ "" → b ≠ "" → a ≠ b →
        a ∈ (s.tasks.filter (fun t => t.date = s.selectedDate)).map (fun t => t.id) →
        b ∈ (s.tasks.filter (fun t => t.date = s.selectedDate)).map (fun t => t.id) →
        (((reorderTasksWithinDay s a b).tasks.filter (fun t => t.date = s.selectedDate)).map (fun t => t.id)).Perm
            ((s.tasks.filter (fun t => t.date = s.selectedDate)).map (fun t => t.id)) ∧
        (∀ (i : Nat) (t : Task),
            ((reorderTasksWithinDay s a b).tasks.filter (fun t => t.date = s.selectedDate))[i]? = some t →
            t.order = some (Int.ofNat i)) ∧
        ((reorderTasksWithinDay s a b).tasks.filter (fun t => t.date ≠ s.selectedDate) =
            s.tasks.filter (fun t => t.date ≠ s.selectedDate)) ∧
        (reorderTasksWithinDay s a b).sortBy = "manual") ∧
      ((a = "" ∨ b = "" ∨ a = b ∨
        a ∉ (s.tasks.filter (fun t => t.date = s.selectedDate)).map (fun t => t.id) ∨
        b ∉ (s.tasks.filter (fun t => t.date = s.selectedDate)).map (fun t => t.id)) →
        reorderTasksWithinDay s a b = s) := by
  intro s a b
  constructor
  · intro ha hb hab hma hmb
    have hguard : ¬ (a = "" ∨ b = "" ∨ a = b) := by
      rintro (h | h | h)
      · exact ha h
      · exact hb h
      · exact hab h
    have hpairs : ((jsMapIdx (fun i (t : Task) => ((t.order.getD (Int.ofNat i)), t))
        (s.tasks.filter (fun t => t.date = s.selectedDate))).map (fun e => e.2)) =
        s.tasks.filter (fun t => t.date = s.selectedDate) := by
      simp only [jsMapIdx]
      rw [map_mapIdxFrom (fun i (t : Task) => ((t.order.getD (Int.ofNat i)), t))
        (fun e => e.2) (fun t => t) (fun j x => rfl) 0]
      exact List.map_id _
    have hoperm : ((jsSortBy (fun x y => x.1 - y.1)
        (jsMapIdx (fun i (t : Task) => ((t.order.getD (Int.ofNat i)), t))
          (s.tasks.filter (fun t => t.date = s.selectedDate)))).map (fun e => e.2)).Perm
        (s.tasks.filter (fun t => t.date = s.selectedDate)) := by
      rw [jsSortBy]
      calc ((List.insertionSort (fun x y => (fun x y => x.1 - y.1) x y ≤ 0)
              (jsMapIdx (fun i (t : Task) => ((t.order.getD (Int.ofNat i)), t))
                (s.tasks.filter (fun t => t.date = s.selectedDate)))).map (fun e => e.2)).Perm
            ((jsMapIdx (fun i (t : Task) => ((t.order.getD (Int.ofNat i)), t))
                (s.tasks.filter (fun t => t.date = s.selectedDate))).map (fun e => e.2)) :=
          (List.perm_insertionSort _ _).map _
        _ = s.tasks.filter (fun t => t.date = s.selectedDate) := hpairs
    have hdates : ∀ t ∈ s.tasks.filter (fun t => t.date = s.selectedDate), t.date = s.selectedDate :=
      fun t ht => by simpa using (List.mem_filter.mp ht).2
    obtain ⟨ta, hta, htaid⟩ := List.mem_map.mp hma
    obtain ⟨tb, htb, htbid⟩ := List.mem_map.mp hmb
    obtain ⟨ia, hia⟩ := Option.isSome_iff_exists.mp
      (jsFindIndex_isSome (fun t => t.id = a)
        ((jsSortBy (fun x y => x.1 - y.1)
            (jsMapIdx (fun i (t : Task) => ((t.order.getD (Int.ofNat i)), t))
              (s.tasks.filter (fun t => t.date = s.selectedDate)))).map (fun e => e.2))
        ⟨ta, hoperm.mem_iff.mpr hta, by simp [htaid]⟩)
    obtain ⟨ib, hib⟩ := Option.isSome_iff_exists.mp
      (jsFindIndex_isSome (fun t => t.id = b)
        ((jsSortBy (fun x y => x.1 - y.1)
            (jsMapIdx (fun i (t : Task) => ((t.order.getD (Int.ofNat i)), t))
              (s.tasks.filter (fun t => t.date = s.selectedDate)))).map (fun e => e.2))
        ⟨tb, hoperm.mem_iff.mpr htb, by simp [htbid]⟩)
    have hlt := jsFindIndex_lt_length _ _ _ hia
    have hex : (((jsSortBy (fun x y => x.1 - y.1)
        (jsMapIdx (fun i (t : Task) => ((t.order.getD (Int.ofNat i)), t))
          (s.tasks.filter (fun t => t.date = s.selectedDate)))).map (fun e => e.2))[ia]?).isSome = true := by
      rw [List.getElem?_eq_getElem hlt]
      rfl
    obtain ⟨moved, hget⟩ := Option.isSome_iff_exists.mp hex
    have hcore := reorder_core
      (s.tasks.filter (fun t => t.date = s.selectedDate))
      ((jsSortBy (fun x y => x.1 - y.1)
          (jsMapIdx (fun i (t : Task) => ((t.order.getD (Int.ofNat i)), t))
            (s.tasks.filter (fun t => t.date = s.selectedDate)))).map (fun e => e.2))
      s.selectedDate _ ia ib moved rfl hoperm hdates hget
    have hfilterKeep :
        ((s.tasks.filter (fun (t : Task) => t.date ≠ s.selectedDate)) ++
          jsMapIdx (fun i (t : Task) => { t with order := some (Int.ofNat i) })
            (jsInsertAt moved
              (jsRemoveAt
                ((jsSortBy (fun (x y : Int × Task) => x.1 - y.1)
                    (jsMapIdx (fun i (t : Task) => ((t.order.getD (Int.ofNat i)), t))
                      (s.tasks.filter (fun (t : Task) => t.date = s.selectedDate)))).map (fun (e : Int × Task) => e.2))
                ia)
              ib)).filter (fun (t : Task) => t.date = s.selectedDate) =
        jsMapIdx (fun i (t : Task) => { t with order := some (Int.ofNat i) })
            (jsInsertAt moved
              (jsRemoveAt
                ((jsSortBy (fun (x y : Int × Task) => x.1 - y.1)
                    (jsMapIdx (fun i (t : Task) => ((t.order.getD (Int.ofNat i)), t))
                      (s.tasks.filter (fun (t : Task) => t.date = s.selectedDate)))).map (fun (e : Int × Task) => e.2))
                ia)
              ib) := by
      rw [List.filter_append]
      have h1 : (s.tasks.filter (fun (t : Task) => t.date ≠ s.selectedDate)).filter
          (fun (t : Task) => t.date = s.selectedDate) = [] := by
        rw [List.filter_eq_nil_iff]
        intro t ht
        have h2 := (List.mem_filter.mp ht).2
        simp only [decide_not] at h2
        simpa using h2
      rw [h1, List.filter_eq_self.mpr (fun t ht => by simpa using hcore.2.2 t ht), List.nil_append]
    have hfilterOther :
        ((s.tasks.filter (fun (t : Task) => t.date ≠ s.selectedDate)) ++
          jsMapIdx (fun i (t : Task) => { t with order := some (Int.ofNat i) })
            (jsInsertAt moved
              (jsRemoveAt
                ((jsSortBy (fun (x y : Int × Task) => x.1 - y.1)
                    (jsMapIdx (fun i (t : Task) => ((t.order.getD (Int.ofNat i)), t))
                      (s.tasks.filter (fun (t : Task) => t.date = s.selectedDate)))).map (fun (e : Int × Task) => e.2))
                ia)
              ib)).filter (fun (t : Task) => t.date ≠ s.selectedDate) =
        s.tasks.filter (fun (t : Task) => t.date ≠ s.selectedDate) := by
      rw [List.filter_append]
      have h1 :
          (jsMapIdx (fun i (t : Task) => { t with order := some (Int.ofNat i) })
            (jsInsertAt moved
              (jsRemoveAt
                ((jsSortBy (fun (x y : Int × Task) => x.1 - y.1)
                    (jsMapIdx (fun i (t : Task) => ((t.order.getD (Int.ofNat i)), t))
                      (s.tasks.filter (fun (t : Task) => t.date = s.selectedDate)))).map (fun (e : Int × Task) => e.2))
                ia)
              ib)).filter (fun (t : Task) => t.date ≠ s.selectedDate) = [] := by
        rw [List.filter_eq_nil_iff]
        intro t ht
        have h2 := hcore.2.2 t ht
        simp [h2]
      rw [h1, List.filter_eq_self.mpr (fun t ht => (List.mem_filter.mp ht).2), List.append_nil]
    simp only [reorderTasksWithinDay, if_neg hguard]
    rw [hia, hib]
    dsimp only
    rw [hget]
    dsimp only
    refine ⟨?_, ?_, ?_, rfl⟩
    · rw [hfilterKeep]
      exact hcore.1
    · rw [hfilterKeep]
      exact hcore.2.1
    · rw [hfilterOther]
  · rintro (h | h | h | h | h)
    · simp only [reorderTasksWithinDay]
      rw [if_pos (Or.inl h)]
    · simp only [reorderTasksWithinDay]
      rw [if_pos (Or.inr (Or.inl h))]
    · simp only [reorderTasksWithinDay]
      rw [if_pos (Or.inr (Or.inr h))]
    · by_cases hguard : a = "" ∨ b = "" ∨ a = b
      · simp only [reorderTasksWithinDay]
        rw [if_pos hguard]
      · have hnone : jsFindIndex (fun t => t.id = a)
            ((jsSortBy (fun x y => x.1 - y.1)
                (jsMapIdx (fun i (t : Task) => ((t.order.getD (Int.ofNat i)), t))
                  (s.tasks.filter (fun t => t.date = s.selectedDate)))).map (fun e => e.2)) = none := by
          apply jsFindIndex_eq_none
          intro x hx
          have hpairs : ((jsMapIdx (fun i (t : Task) => ((t.order.getD (Int.ofNat i)), t))
              (s.tasks.filter (fun t => t.date = s.selectedDate))).map (fun e => e.2)) =
              s.tasks.filter (fun t => t.date = s.selectedDate) := by
            simp only [jsMapIdx]
            rw [map_mapIdxFrom (fun i (t : Task) => ((t.order.getD (Int.ofNat i)), t))
              (fun e => e.2) (fun t => t) (fun j y => rfl) 0]
            exact List.map_id _
          have hx2 : x ∈ s.tasks.filter (fun t => t.date = s.selectedDate) := by
            rw [← hpairs]
            have hsp : (List.insertionSort (fun (p q : Int × Task) => p.1 - q.1 ≤ 0)
                (jsMapIdx (fun i (t : Task) => ((t.order.getD (Int.ofNat i)), t))
                  (s.tasks.filter (fun t => t.date = s.selectedDate)))).Perm
                (jsMapIdx (fun i (t : Task) => ((t.order.getD (Int.ofNat i)), t))
                  (s.tasks.filter (fun t => t.date = s.selectedDate))) :=
              List.perm_insertionSort _ _
            exact (hsp.map (fun e => e.2)).mem_iff.mp (by simpa [jsSortBy] using hx)
          by_cases hxa : x.id = a
          · exact absurd (List.mem_map.mpr ⟨x, hx2, hxa⟩) h
          · simpa using hxa
        simp only [reorderTasksWithinDay, if_neg hguard]
        rw [hnone]
    · by_cases hguard : a = "" ∨ b = "" ∨ a = b
      · simp only [reorderTasksWithinDay]
        rw [if_pos hguard]
      · have hnone : jsFindIndex (fun t => t.id = b)
            ((jsSortBy (fun x y => x.1 - y.1)
                (jsMapIdx (fun i (t : Task) => ((t.order.getD (Int.ofNat i)), t))
                  (s.tasks.filter (fun t => t.date = s.selectedDate)))).map (fun e => e.2)) = none := by
          apply jsFindIndex_eq_none
          intro x hx
          have hpairs : ((jsMapIdx (fun i (t : Task) => ((t.order.getD (Int.ofNat i)), t))
              (s.tasks.filter (fun t => t.date = s.selectedDate))).map (fun e => e.2)) =
              s.tasks.filter (fun t => t.date = s.selectedDate) := by
            simp only [jsMapIdx]
            rw [map_mapIdxFrom (fun i (t : Task) => ((t.order.getD (Int.ofNat i)), t))
              (fun e => e.2) (fun t => t) (fun j y => rfl) 0]
            exact List.map_id _
          have hx2 : x ∈ s.tasks.filter (fun t => t.date = s.selectedDate) := by
            rw [← hpairs]
            have hsp : (List.insertionSort (fun (p q : Int × Task) => p.1 - q.1 ≤ 0)
                (jsMapIdx (fun i (t : Task) => ((t.order.getD (Int.ofNat i)), t))
                  (s.tasks.filter (fun t => t.date = s.selectedDate)))).Perm
                (jsMapIdx (fun i (t : Task) => ((t.order.getD (Int.ofNat i)), t))
                  (s.tasks.filter (fun t => t.date = s.selectedDate))) :=
              List.perm_insertionSort _ _
            exact (hsp.map (fun e => e.2)).mem_iff.mp (by simpa [jsSortBy] using hx)
          by_cases hxb : x.id = b
          · exact absurd (List.mem_map.mpr ⟨x, hx2, hxb⟩) h
          · simpa using hxb
        simp only [reorderTasksWithinDay, if_neg hguard]
        rw [hnone]
        cases jsFindIndex (fun t => t.id = a)
            ((jsSortBy (fun x y => x.1 - y.1)
                (jsMapIdx (fun i (t : Task) => ((t.order.getD (Int.ofNat i)), t))
                  (s.tasks.filter (fun t => t.date = s.selectedDate)))).map (fun e => e.2)) <;> rfl

end Planner

namespace Planner

/-- C6 witness: in `c6GoodState`, dragging `"z"` onto `"x"` permutes the
same-day ids, leaves the other-day task untouched and forces manual
sort. -/
theorem C6_reorder_spec_witness :
    (((reorderTasksWithinDay c6GoodState "z" "x").tasks.filter
        (fun t => t.date = c6GoodState.selectedDate)).map (fun t => t.id)).Perm
      ((c6GoodState.tasks.filter (fun t => t.date = c6GoodState.selectedDate)).map (fun t => t.id)) ∧
    ((reorderTasksWithinDay c6GoodState "z" "x").tasks.filter
        (fun t => t.date ≠ c6GoodState.selectedDate) =
      c6GoodState.tasks.filter (fun t => t.date ≠ c6GoodState.selectedDate)) ∧
    (reorderTasksWithinDay c6GoodState "z" "x").sortBy = "manual" := by
  have h := (C6_reorder_spec c6GoodState "z" "x").1
    (by decide) (by decide) (by decide) (by decide) (by decide)
  exact ⟨h.1, h.2.2.1, h.2.2.2⟩

end Planner

namespace Planner

/-- Inserting into a sorted list preserves pairwise `R` when the sort
order implies `R` in both directions. -/
theorem pairwise_orderedInsert {α : Type} (R : α → α → Prop) (le : α → α → Prop)
    [DecidableRel le]
    (htrans : ∀ x y z, R x y → R y z → R x z)
    (h1 : ∀ x y, le x y → R x y) (h2 : ∀ x y, ¬ le x y → R y x) :
    ∀ (a : α) (l : List α), l.Pairwise R → (List.orderedInsert le a l).Pairwise R := by
  intro a l
  induction l with
  | nil => intro _; simp
  | cons b bs ih =>
      intro hp
      rw [List.orderedInsert]
      obtain ⟨hb, hbs⟩ := List.pairwise_cons.mp hp
      split
      next hab =>
        refine List.pairwise_cons.mpr ⟨?_, hp⟩
        intro y hy
        rcases List.mem_cons.mp hy with he | he
        · exact he ▸ h1 a b hab
        · exact htrans a b y (h1 a b hab) (hb y he)
      next hab =>
        refine List.pairwise_cons.mpr ⟨?_, ih hbs⟩
        intro y hy
        rcases (List.mem_orderedInsert le).mp hy with he | he
        · exact he ▸ h2 a b hab
        · exact hb y he

/-- A stable insertion sort is pairwise ordered by any transitive
relation the comparator respects in both directions. -/
theorem pairwise_insertionSort {α : Type} (R : α → α → Prop) (le : α → α → Prop)
    [DecidableRel le]
    (htrans : ∀ x y z, R x y → R y z → R x z)
    (h1 : ∀ x y, le x y → R x y) (h2 : ∀ x y, ¬ le x y → R y x) :
    ∀ (l : List α), (l.insertionSort le).Pairwise R := by
  intro l
  induction l with
  | nil => simp
  | cons x xs ih =>
      rw [List.insertionSort]
      exact pairwise_orderedInsert R le htrans h1 h2 x _ ih

/-- The priority comparator respects the priority rank downwards. -/
theorem compareTasks_priority_rank_le (x y : Task)
    (h : compareTasks "priority" x y ≤ 0) :
    PRIORITY_ORDER x.priority ≤ PRIORITY_ORDER y.priority := by
  unfold compareTasks at h
  rw [if_pos rfl] at h
  dsimp only at h
  split at h
  next hne => omega
  next hne =>
    push_neg at hne
    omega

/-- The priority comparator respects the priority rank upwards. -/
theorem compareTasks_priority_rank_gt (x y : Task)
    (h : ¬ compareTasks "priority" x y ≤ 0) :
    PRIORITY_ORDER y.priority ≤ PRIORITY_ORDER x.priority := by
  unfold compareTasks at h
  rw [if_pos rfl] at h
  dsimp only at h
  split at h
  next hne => omega
  next hne =>
    push_neg at hne
    omega

/-- C7 counterexample: three Medium tasks whose claimed tie-breaks form a
cycle (Meeting Z at 01:40 before Meeting A at 03:20 by time, Meeting A
before Work M by name, but Work M before Meeting Z by name), so the
output of `visibleTasks` is not ordered by the claimed comparison — no
arrangement of these tasks could be. -/
theorem C7_priority_sort_counterexample :
    ¬ (visibleTasks c7Cycle "2025-01-01" false "All" "All" "All" "priority").Pairwise
        (fun x y => compareTasks "priority" x y ≤ 0) := by
  decide

/-- C7 (amended): under `sortBy = "priority"`, `visibleTasks` returns a
permutation of the filtered tasks that is pairwise non-decreasing in
priority rank (High < Medium < Low); ties are fed to the comparator
(meeting time for Meeting/Meeting pairs, name otherwise), but that
tie-break is not transitive, so tie groups mixing Meetings and
non-Meetings need not come out totally ordered; the concrete scenario
[Low B, High A, Medium C] yields ["A", "C", "B"]. -/
theorem C7_priority_sort (tasks : List Task) (sel : String) (showAll : Bool) (fT fC fS : String) :
    (visibleTasks tasks sel showAll fT fC fS "priority").Perm
      (tasks.filter (taskPassesFilters sel showAll fT fC fS)) ∧
    (visibleTasks tasks sel showAll fT fC fS "priority").Pairwise
      (fun x y => PRIORITY_ORDER x.priority ≤ PRIORITY_ORDER y.priority) ∧
    (visibleTasks c7Scenario "2025-01-01" false "All" "All" "All" "priority").map (fun t => t.name)
      = ["A", "C", "B"] := by
  have hvt : visibleTasks tasks sel showAll fT fC fS "priority" =
      (tasks.filter (taskPassesFilters sel showAll fT fC fS)).insertionSort
        (fun x y => compareTasks "priority" x y ≤ 0) := by
    simp [visibleTasks, jsSortBy]
  refine ⟨?_, ?_, by decide⟩
  · rw [hvt]
    exact List.perm_insertionSort _ _
  · rw [hvt]
    exact pairwise_insertionSort
      (fun x y : Task => PRIORITY_ORDER x.priority ≤ PRIORITY_ORDER y.priority)
      (fun x y => compareTasks "priority" x y ≤ 0)
      (fun x y z hx hy => le_trans hx hy)
      compareTasks_priority_rank_le
      compareTasks_priority_rank_gt
      _

end Planner

namespace Planner

/-- Dropping a matching prefix twice is dropping it once. -/
theorem dropWhile_idem {α : Type} (p : α → Bool) :
    ∀ (l : List α), (l.dropWhile p).dropWhile p = l.dropWhile p := by
  intro l
  induction l with
  | nil => rfl
  | cons a l ih =>
      rw [List.dropWhile_cons]
      split
      next => exact ih
      next h => rw [List.dropWhile_cons, if_neg h]

/-- The head surviving `dropWhile` does not match. -/
theorem head_dropWhile_false {α : Type} (p : α → Bool) :
    ∀ (l : List α) (a : α), (l.dropWhile p).head? = some a → p a = false := by
  intro l
  induction l with
  | nil => intro a h; simp at h
  | cons b l ih =>
      intro a h
      rw [List.dropWhile_cons] at h
      split at h
      · exact ih a h
      next hb =>
        simp only [List.head?_cons, Option.some.injEq] at h
        rw [← h]
        simpa using hb

/-- `dropWhile` keeps the last element of a list it does not empty. -/
theorem getLast_dropWhile {α : Type} (p : α → Bool) :
    ∀ (l : List α), l.dropWhile p ≠ [] → (l.dropWhile p).getLast? = l.getLast? := by
  intro l
  induction l with
  | nil => intro h; simp at h
  | cons b l ih =>
      intro h
      rw [List.dropWhile_cons] at h ⊢
      by_cases hb : p b = true
      · rw [if_pos hb] at h ⊢
        have hlne : l ≠ [] := by
          intro he
          rw [he] at h
          exact h rfl
        rw [ih h]
        cases l with
        | nil => exact absurd rfl hlne
        | cons c l2 => simp
      · rw [if_neg hb]

/-- A list whose head does not match is unchanged by `dropWhile`. -/
theorem dropWhile_eq_self_of_head {α : Type} (p : α → Bool) (l : List α)
    (h : ∀ a, l.head? = some a → p a = false) : l.dropWhile p = l := by
  cases l with
  | nil => rfl
  | cons a l2 => rw [List.dropWhile_cons, if_neg (by simp [h a rfl])]

/-- JS `trim` is idempotent. -/
theorem jsTrim_idem (s : String) : jsTrim (jsTrim s) = jsTrim s := by
  unfold jsTrim
  apply congrArg
  dsimp only
  have hA : ((s.data.dropWhile isJsWhitespace).reverse.dropWhile isJsWhitespace).reverse.dropWhile isJsWhitespace =
      ((s.data.dropWhile isJsWhitespace).reverse.dropWhile isJsWhitespace).reverse := by
    apply dropWhile_eq_self_of_head
    intro a ha
    rw [List.head?_reverse] at ha
    by_cases hne : (s.data.dropWhile isJsWhitespace).reverse.dropWhile isJsWhitespace = []
    · rw [hne] at ha; simp at ha
    · rw [getLast_dropWhile _ _ hne, List.getLast?_reverse] at ha
      exact head_dropWhile_false _ _ _ ha
  rw [hA, List.reverse_reverse, dropWhile_idem]

/-- A 6-hex color string is non-empty. -/
theorem isHex_ne_empty {v : String} (h : isHexColor v = true) : v ≠ "" := by
  intro he
  rw [he] at h
  simp [isHexColor] at h

/-- Hex digits are not JS whitespace. -/
theorem hexDigit_not_ws (c : Char)
    (h : (c.isDigit || ('a' ≤ c && c ≤ 'f') || ('A' ≤ c && c ≤ 'F')) = true) :
    isJsWhitespace c = false := by
  by_contra hws
  have hws2 : isJsWhitespace c = true := by simpa using hws
  unfold isJsWhitespace at hws2
  simp only [Bool.or_eq_true, decide_eq_true_eq] at hws2
  rcases hws2 with ((((h1 | h1) | h1) | h1) | h1) | h1 <;>
    · subst h1
      exact absurd h (by decide)

/-- A 6-hex color string is already trimmed. -/
theorem isHex_trim {v : String} (h : isHexColor v = true) : jsTrim v = v := by
  cases v with
  | mk data =>
      cases data with
      | nil => simp [isHexColor] at h
      | cons c rest =>
          unfold isHexColor at h
          simp only [Bool.and_eq_true, decide_eq_true_eq] at h
          obtain ⟨⟨hc, hlen⟩, hrest⟩ := h
          subst hc
          unfold jsTrim
          apply congrArg
          dsimp only
          have h1 : ('#' :: rest).dropWhile isJsWhitespace = '#' :: rest := by
            rw [List.dropWhile_cons, if_neg (by decide)]
          rw [h1]
          have hne : rest ≠ [] := by
            intro he
            rw [he] at hlen
            simp at hlen
          have h2 : ('#' :: rest).reverse.dropWhile isJsWhitespace = ('#' :: rest).reverse := by
            apply dropWhile_eq_self_of_head
            intro a ha
            rw [List.head?_reverse] at ha
            have hlast : rest.getLast? = some a := by
              cases rest with
              | nil => exact absurd rfl hne
              | cons r0 rs => simpa using ha
            have hmem : a ∈ rest := List.mem_of_mem_getLast? hlast
            exact hexDigit_not_ws a (List.all_eq_true.mp hrest a hmem)
          rw [h2, List.reverse_reverse]

end Planner

namespace Planner

/-- `String(x || d)` on a plain string value. -/
theorem strOr_str (x d : String) :
    strOr (some (.str x)) (.str d) = if x = "" then d else x := by
  unfold strOr orDefault
  dsimp only
  by_cases hx : x = ""
  · subst hx
    rw [if_neg (by simp [jsTruthy]), if_pos rfl]
    rfl
  · rw [if_pos (by simp [jsTruthy, hx]), if_neg hx]
    rfl

/-- The dedup worker returns already-deduplicated unseen input unchanged. -/
theorem dedupKeepFirstAux_eq_self :
    ∀ (l seen : List String), l.Nodup → (∀ a ∈ l, a ∉ seen) →
      dedupKeepFirstAux seen l = l := by
  intro l
  induction l with
  | nil => intro seen _ _; rfl
  | cons x xs ih =>
      intro seen hnd hsn
      rw [dedupKeepFirstAux]
      rw [if_neg (by
        intro hc
        exact hsn x (List.mem_cons_self _ _) (by simpa using hc))]
      rw [ih (x :: seen) (List.nodup_cons.mp hnd).2]
      intro a ha
      intro hc
      rcases List.mem_cons.mp hc with he | he
      · exact (List.nodup_cons.mp hnd).1 (he ▸ ha)
      · exact hsn a (List.mem_cons_of_mem x ha) he

/-- Deduplication of a duplicate-free list is the identity. -/
theorem dedupKeepFirst_eq_self (l : List String) (h : l.Nodup) :
    dedupKeepFirst l = l :=
  dedupKeepFirstAux_eq_self l [] h (by simp)

/-- The dedup worker never repeats an element. -/
theorem dedupKeepFirstAux_nodup :
    ∀ (l seen : List String), (dedupKeepFirstAux seen l).Nodup := by
  intro l
  induction l with
  | nil => intro seen; simp [dedupKeepFirstAux]
  | cons x xs ih =>
      intro seen
      rw [dedupKeepFirstAux]
      split
      next => exact ih seen
      next hx =>
        refine List.nodup_cons.mpr ⟨?_, ih (x :: seen)⟩
        intro hc
        exact ((mem_dedupKeepFirstAux xs (x :: seen) x).mp hc).2 (List.mem_cons_self _ _)

/-- Deduplication never repeats an element. -/
theorem dedupKeepFirst_nodup (l : List String) : (dedupKeepFirst l).Nodup := by
  rw [dedupKeepFirst]
  exact dedupKeepFirstAux_nodup _ _

/-- Forcing `"General"` in keeps the list duplicate-free. -/
theorem nodup_ifUnshift {l : List String} (h : l.Nodup) :
    (if l.contains "General" then l else "General" :: l).Nodup := by
  split
  next => exact h
  next hcon => exact List.nodup_cons.mpr ⟨fun hc => hcon (by simpa using hc), h⟩

/-- Normalized categories carry no duplicates. -/
theorem normCategories_nodup (payload : JSValue) : (normCategories payload).Nodup := by
  simp only [normCategories]
  exact nodup_ifUnshift (dedupKeepFirst_nodup _)

/-- Normalized categories are already trimmed. -/
theorem normCategories_trimmed (payload : JSValue) :
    ∀ c ∈ normCategories payload, jsTrim c = c := by
  intro c hc
  simp only [normCategories] at hc
  rcases mem_of_mem_ifUnshift hc with h | h
  · rw [h]; decide
  · have h2 := (mem_dedupKeepFirst _ _).mp h
    have h3 := (List.mem_filter.mp h2).1
    obtain ⟨x, _, hx⟩ := List.mem_map.mp h3
    rw [← hx]
    exact jsTrim_idem _

end Planner

namespace Planner

/-- Re-normalizing the categories of a well-formed state is the identity. -/
theorem normCategories_stateToJS (s : SState)
    (h1 : ∀ c ∈ s.categories, jsTrim c = c) (h2 : ∀ c ∈ s.categories, c ≠ "")
    (h3 : s.categories.Nodup) (h4 : "General" ∈ s.categories) :
    normCategories (stateToJS s) = s.categories := by
  have hf : jsField (stateToJS s) "categories" = some (.arr (s.categories.map .str)) := rfl
  simp only [normCategories, hf]
  have hmap : (s.categories.map JSValue.str).map (fun x => jsTrim (strOr (some x) (.str ""))) =
      s.categories := by
    rw [List.map_map]
    have hpt : ∀ c ∈ s.categories,
        ((fun x => jsTrim (strOr (some x) (.str ""))) ∘ JSValue.str) c = id c := by
      intro c hc
      simp only [Function.comp_apply, id_eq]
      rw [strOr_str, if_neg (h2 c hc)]
      exact h1 c hc
    rw [List.map_congr_left hpt, List.map_id]
  rw [hmap]
  rw [List.filter_eq_self.mpr (fun c hc => by simpa using h2 c hc)]
  rw [dedupKeepFirst_eq_self _ h3]
  rw [if_pos (by simpa using h4)]

/-- Rebuilding an association list of trimmed keys and hex values through
the raw-colors pass reproduces it. -/
theorem colors0_build :
    ∀ (l m : List (String × String)),
      (∀ kv ∈ l, jsTrim kv.1 = kv.1 ∧ kv.1 ≠ "" ∧ isHexColor kv.2 = true) →
      (∀ kv ∈ l, kv.1 ∉ m.map Prod.fst) →
      ((l.map Prod.fst).Nodup) →
      ((l.map (fun p => (p.1, JSValue.str p.2))).foldl
        (fun m kv =>
          let category := jsTrim kv.1
          let color := jsTrim (strOr (some kv.2) (.str ""))
          if category ≠ "" ∧ isHexColor color then alSet m category color else m)
        m) = m ++ l := by
  intro l
  induction l with
  | nil => intro m _ _ _; simp
  | cons kv rest ih =>
      intro m hprops hfresh hnd
      obtain ⟨htrim, hne, hhex⟩ := hprops kv (List.mem_cons_self _ _)
      rw [List.map_cons, List.foldl_cons]
      dsimp only
      have hcolor : jsTrim (strOr (some (JSValue.str kv.2)) (.str "")) = kv.2 := by
        rw [strOr_str, if_neg (isHex_ne_empty hhex)]
        exact isHex_trim hhex
      rw [htrim, hcolor, if_pos ⟨hne, hhex⟩]
      have hset : alSet m kv.1 kv.2 = m ++ [kv] := by
        unfold alSet
        rw [if_neg (by
          intro hc
          obtain ⟨p, hp⟩ := Option.isSome_iff_exists.mp hc
          have hpmem := List.mem_of_find?_eq_some hp
          have hpk : p.1 = kv.1 := by simpa using List.find?_some hp
          exact hfresh kv (List.mem_cons_self _ _) (List.mem_map.mpr ⟨p, hpmem, hpk⟩))]
      rw [hset]
      have hnd2 : (kv.1 :: rest.map Prod.fst).Nodup := by simpa using hnd
      rw [ih (m ++ [kv])
        (fun p hp => hprops p (List.mem_cons_of_mem _ hp))
        (fun p hp hc => by
          rw [List.map_append] at hc
          rcases List.mem_append.mp hc with h | h
          · exact hfresh p (List.mem_cons_of_mem _ hp) h
          · have hpk : p.1 = kv.1 := by simpa using h
            exact (List.nodup_cons.mp hnd2).1 (List.mem_map.mpr ⟨p, hp, hpk⟩))
        (List.nodup_cons.mp hnd2).2]
      simp

/-- The default-color pass is a no-op when every category already has a
non-empty color. -/
theorem defaultFold_noop :
    ∀ (cs : List String) (m : List (String × String)),
      (∀ c ∈ cs, ((alGet m c).getD "") ≠ "") →
      cs.foldl (fun m c => if ((alGet m c).getD "") = "" then alSet m c DEFAULT_CATEGORY_COLOR else m) m
        = m := by
  intro cs
  induction cs with
  | nil => intro m _; rfl
  | cons c rest ih =>
      intro m h
      rw [List.foldl_cons, if_neg (h c (List.mem_cons_self _ _))]
      exact ih m (fun c2 hc2 => h c2 (List.mem_cons_of_mem _ hc2))

/-- Re-normalizing the colors of a well-formed state is the identity. -/
theorem normColors_stateToJS (s : SState)
    (hkeys : (s.categoryColors.map Prod.fst).Nodup)
    (hprops : ∀ kv ∈ s.categoryColors, jsTrim kv.1 = kv.1 ∧ kv.1 ≠ "" ∧ isHexColor kv.2 = true)
    (hcover : ∀ c ∈ s.categories, isHexColor ((alGet s.categoryColors c).getD "") = true) :
    normColors (stateToJS s) s.categories = s.categoryColors := by
  have hf : jsField (stateToJS s) "categoryColors" =
      some (.obj (s.categoryColors.map (fun p => (p.1, .str p.2)))) := rfl
  simp only [normColors, hf, isObjectLike, jsEntries, if_true]
  rw [colors0_build s.categoryColors [] hprops (by simp) hkeys, List.nil_append]
  exact defaultFold_noop _ _
    (fun c hc he => by
      have h2 := hcover c hc
      rw [he] at h2
      exact absurd h2 (by decide))

end Planner

namespace Planner

/-- `String(x || "")` on a plain string value is the identity. -/
theorem strOr_str_empty (x : String) : strOr (some (.str x)) (.str "") = x := by
  rw [strOr_str]
  split
  next h => exact h.symm
  next => rfl

/-- `Number(x || d)` on a plain number value. -/
theorem numOr_num (c d : Int) :
    (jsToNum (orDefault (some (.num c)) (.num d))).getD 0 = if c = 0 then d else c := by
  unfold orDefault
  dsimp only
  by_cases hc : c = 0
  · subst hc
    rw [if_neg (by simp [jsTruthy]), if_pos rfl]
    rfl
  · rw [if_pos (by simp [jsTruthy, hc]), if_neg hc]
    rfl

/-- The JSON form of a task without a manual rank, as a flat object. -/
theorem taskToJS_obj (t : Task) (h : t.order = none) :
    taskToJS t = .obj [("id", .str t.id), ("name", .str t.name),
      ("description", .str t.description), ("priority", .str t.priority),
      ("category", .str t.category), ("taskType", .str t.taskType),
      ("meetingTime", .str t.meetingTime), ("date", .str t.date),
      ("done", .bool t.done), ("hidden", .bool t.hidden),
      ("createdAt", .num t.createdAt)] := by
  rw [taskToJS, h]
  simp

/-- Task objects always pass the `typeof === "object"` filter. -/
theorem isObjectLike_taskToJS (t : Task) : isObjectLike (taskToJS t) = true := by
  rw [taskToJS]
  cases t.order <;> rfl

/-- Re-coercing the JSON form of an already-normalized task applies only
the residual defaults. -/
theorem normTask_taskToJS (uuid : Nat → String) (now : Int) (today : String)
    (categories : List String) (i : Nat) (t : Task)
    (hcat : t.category ∈ categories) (hcatne : ∀ c ∈ categories, c ≠ "")
    (horder : t.order = none) :
    normTask uuid now today categories i (taskToJS t) = recoerceTask uuid now today i t := by
  rw [taskToJS_obj t horder]
  show ({ id := strOr (some (.str t.id)) (.str (uuid i))
          name := strOr (some (.str t.name)) (.str "")
          description := strOr (some (.str t.description)) (.str "")
          priority := strOr (some (.str t.priority)) (.str "Medium")
          category :=
            if categories.contains (strOr (some (.str t.category)) (.str "")) then
              jsToStringU (some (.str t.category))
            else "General"
          taskType := strOr (some (.str t.taskType)) (.str "Work")
          meetingTime := strOr (some (.str t.meetingTime)) (.str "")
          date := strOr (some (.str t.date)) (.str today)
          done := jsTruthyU (some (.bool t.done))
          hidden := jsTruthyU (some (.bool t.hidden))
          createdAt := (jsToNum (orDefault (some (.num t.createdAt)) (.num now))).getD 0
          order := none } : Task) = recoerceTask uuid now today i t
  unfold recoerceTask
  have hcatstr : strOr (some (.str t.category)) (.str "") = t.category := strOr_str_empty _
  simp only [Task.mk.injEq]
  refine ⟨strOr_str _ _, strOr_str_empty _, strOr_str_empty _, strOr_str _ _, ?_,
    strOr_str _ _, strOr_str_empty _, strOr_str _ _, rfl, rfl, numOr_num _ _, horder.symm⟩
  rw [hcatstr, if_pos (by simpa using hcat)]
  rfl

end Planner

namespace Planner

/-- Indexed map over a plain map fuses. -/
theorem mapIdxFrom_map {α β γ : Type} (g : α → β) (f : Nat → β → γ) :
    ∀ (i : Nat) (l : List α), mapIdxFrom f i (l.map g) = mapIdxFrom (fun j a => f j (g a)) i l := by
  intro i l
  induction l generalizing i with
  | nil => rfl
  | cons x xs ih => rw [List.map_cons, mapIdxFrom, mapIdxFrom, ih]

/-- Indexed maps agree when the functions agree on members. -/
theorem mapIdxFrom_congr {α β : Type} (f g : Nat → α → β) :
    ∀ (i : Nat) (l : List α), (∀ j a, a ∈ l → f j a = g j a) →
      mapIdxFrom f i l = mapIdxFrom g i l := by
  intro i l
  induction l generalizing i with
  | nil => intro _; rfl
  | cons x xs ih =>
      intro h
      rw [mapIdxFrom, mapIdxFrom, h i x (List.mem_cons_self _ _),
        ih (i + 1) (fun j a ha => h j a (List.mem_cons_of_mem _ ha))]

/-- Two indexed maps in sequence compose pointwise. -/
theorem mapIdxFrom_comp {α β γ : Type} (g : Nat → α → β) (f : Nat → β → γ) :
    ∀ (i : Nat) (l : List α),
      mapIdxFrom f i (mapIdxFrom g i l) = mapIdxFrom (fun j a => f j (g j a)) i l := by
  intro i l
  induction l generalizing i with
  | nil => rfl
  | cons x xs ih => rw [mapIdxFrom, mapIdxFrom, mapIdxFrom, ih]

/-- Serialized tasks all pass the object filter. -/
theorem filter_taskToJS (l : List Task) :
    (l.map taskToJS).filter isObjectLike = l.map taskToJS :=
  List.filter_eq_self.mpr (fun v hv => by
    obtain ⟨t, _, rfl⟩ := List.mem_map.mp hv
    exact isObjectLike_taskToJS t)

/-- Re-normalizing the JSON form of a state with well-formed categories
and colors keeps them and applies only the residual task coercion. -/
theorem normalize_stateToJS (uuid : Nat → String) (now : Int) (today : String) (s : SState)
    (hcat1 : ∀ c ∈ s.categories, jsTrim c = c) (hcat2 : ∀ c ∈ s.categories, c ≠ "")
    (hcat3 : s.categories.Nodup) (hcat4 : "General" ∈ s.categories)
    (hkeys : (s.categoryColors.map Prod.fst).Nodup)
    (hprops : ∀ kv ∈ s.categoryColors, jsTrim kv.1 = kv.1 ∧ kv.1 ≠ "" ∧ isHexColor kv.2 = true)
    (hcover : ∀ c ∈ s.categories, isHexColor ((alGet s.categoryColors c).getD "") = true)
    (htasks : ∀ t ∈ s.tasks, t.category ∈ s.categories ∧ t.order = none) :
    normalizeStateServer uuid now today (stateToJS s) =
      { tasks := jsMapIdx (recoerceTask uuid now today) s.tasks
        categories := s.categories
        categoryColors := s.categoryColors
        selectedDate := if s.selectedDate = "" then today else s.selectedDate } := by
  have hcats := normCategories_stateToJS s hcat1 hcat2 hcat3 hcat4
  have hcols := normColors_stateToJS s hkeys hprops hcover
  have hraw : rawTasksOf (stateToJS s) = s.tasks.map taskToJS := rfl
  have hsel : jsField (stateToJS s) "selectedDate" = some (.str s.selectedDate) := rfl
  simp only [normalizeStateServer, hcats, hcols, hraw, hsel, SState.mk.injEq]
  refine ⟨?_, trivial, trivial, ?_⟩
  · rw [filter_taskToJS]
    simp only [jsMapIdx]
    rw [mapIdxFrom_map]
    exact mapIdxFrom_congr _ _ 0 s.tasks
      (fun j a ha => normTask_taskToJS uuid now today s.categories j a
        (htasks a ha).1 hcat2 (htasks a ha).2)
  · exact strOr_str _ _

end Planner

namespace Planner

/-- `alSet` preserves distinctness of the stored keys. -/
theorem alSet_keys_nodup {β : Type} {m : List (String × β)} {k : String} {v : β}
    (h : (m.map Prod.fst).Nodup) : ((alSet m k v).map Prod.fst).Nodup := by
  unfold alSet
  split
  next hp =>
    have hmap : (m.map (fun p => if p.1 = k then (k, v) else p)).map Prod.fst
        = m.map Prod.fst := by
      rw [List.map_map]
      apply List.map_congr_left
      intro p _
      by_cases hq : p.1 = k
      · simp [hq]
      · simp [hq]
    rw [hmap]; exact h
  next hp =>
    have hnone : m.find? (fun p => p.1 = k) = none := by
      rcases hfo : m.find? (fun p => p.1 = k) with _ | p
      · exact hfo
      · exact absurd (by rw [hfo]; rfl) hp
    have hk : k ∉ m.map Prod.fst := by
      intro hmem
      obtain ⟨p, hpmem, hpk⟩ := List.mem_map.mp hmem
      have hnp := List.find?_eq_none.mp hnone p hpmem
      simp [hpk] at hnp
    rw [List.map_append]
    simp [List.nodup_append, h, hk]

/-- `alSet` preserves any entry property the written pair has. -/
theorem alSet_entries {β : Type} {P : String × β → Prop} {m : List (String × β)} {k : String} {v : β}
    (hm : ∀ kv ∈ m, P kv) (hv : P (k, v)) : ∀ kv ∈ alSet m k v, P kv := by
  intro kv hkv
  rcases mem_alSet hkv with h | h
  · rw [h]; exact hv
  · exact hm kv h

/-- Entries produced by the raw-colors pass are trimmed, non-empty keyed
and hex valued. -/
theorem colorsFold_entries :
    ∀ (pairs : List (String × JSValue)) (m0 : List (String × String)),
      (∀ kv ∈ m0, jsTrim kv.1 = kv.1 ∧ kv.1 ≠ "" ∧ isHexColor kv.2 = true) →
      ∀ kv ∈ pairs.foldl
          (fun m kv =>
            let category := jsTrim kv.1
            let color := jsTrim (strOr (some kv.2) (.str ""))
            if category ≠ "" ∧ isHexColor color then alSet m category color else m)
          m0,
        jsTrim kv.1 = kv.1 ∧ kv.1 ≠ "" ∧ isHexColor kv.2 = true := by
  intro pairs
  induction pairs with
  | nil => intro m0 hm0; simpa using hm0
  | cons p ps ih =>
      intro m0 hm0
      rw [List.foldl_cons]
      apply ih
      dsimp only
      split
      next hcond => exact alSet_entries hm0 ⟨jsTrim_idem _, hcond.1, hcond.2⟩
      next hcond => exact hm0

/-- The raw-colors pass keeps the stored keys distinct. -/
theorem colorsFold_keysNodup :
    ∀ (pairs : List (String × JSValue)) (m0 : List (String × String)),
      (m0.map Prod.fst).Nodup →
      ((pairs.foldl
          (fun m kv =>
            let category := jsTrim kv.1
            let color := jsTrim (strOr (some kv.2) (.str ""))
            if category ≠ "" ∧ isHexColor color then alSet m category color else m)
          m0).map Prod.fst).Nodup := by
  intro pairs
  induction pairs with
  | nil => intro m0 hm0; simpa using hm0
  | cons p ps ih =>
      intro m0 hm0
      rw [List.foldl_cons]
      apply ih
      dsimp only
      split
      next hcond => exact alSet_keys_nodup hm0
      next hcond => exact hm0

/-- Entries produced by the default-color pass keep the entry
properties, given trimmed non-empty category names. -/
theorem defaultFold_entries :
    ∀ (cs : List String) (m : List (String × String)),
      (∀ c ∈ cs, jsTrim c = c ∧ c ≠ "") →
      (∀ kv ∈ m, jsTrim kv.1 = kv.1 ∧ kv.1 ≠ "" ∧ isHexColor kv.2 = true) →
      ∀ kv ∈ cs.foldl
          (fun m c => if ((alGet m c).getD "") = "" then alSet m c DEFAULT_CATEGORY_COLOR else m)
          m,
        jsTrim kv.1 = kv.1 ∧ kv.1 ≠ "" ∧ isHexColor kv.2 = true := by
  intro cs
  induction cs with
  | nil => intro m _ hm; simpa using hm
  | cons c0 rest ih =>
      intro m hcs hm
      rw [List.foldl_cons]
      apply ih _ (fun c hc => hcs c (List.mem_cons_of_mem _ hc))
      split
      next h0 =>
        exact alSet_entries hm
          ⟨(hcs c0 (List.mem_cons_self _ _)).1, (hcs c0 (List.mem_cons_self _ _)).2,
           (by decide : isHexColor DEFAULT_CATEGORY_COLOR = true)⟩
      next h0 => exact hm

/-- The default-color pass keeps the stored keys distinct. -/
theorem defaultFold_keysNodup :
    ∀ (cs : List String) (m : List (String × String)),
      (m.map Prod.fst).Nodup →
      ((cs.foldl
          (fun m c => if ((alGet m c).getD "") = "" then alSet m c DEFAULT_CATEGORY_COLOR else m)
          m).map Prod.fst).Nodup := by
  intro cs
  induction cs with
  | nil => intro m hm; simpa using hm
  | cons c0 rest ih =>
      intro m hm
      rw [List.foldl_cons]
      apply ih
      split
      next h0 => exact alSet_keys_nodup hm
      next h0 => exact hm

/-- The normalized color map has distinct keys. -/
theorem normColors_keysNodup (payload : JSValue) (categories : List String) :
    ((normColors payload categories).map Prod.fst).Nodup := by
  simp only [normColors]
  exact defaultFold_keysNodup _ _ (colorsFold_keysNodup _ _ (by simp))

/-- Every entry of the normalized color map has a trimmed non-empty key
and a 6-hex value, given trimmed non-empty category names. -/
theorem normColors_entries (payload : JSValue) (categories : List String)
    (hcs : ∀ c ∈ categories, jsTrim c = c ∧ c ≠ "") :
    ∀ kv ∈ normColors payload categories,
      jsTrim kv.1 = kv.1 ∧ kv.1 ≠ "" ∧ isHexColor kv.2 = true := by
  simp only [normColors]
  exact defaultFold_entries _ _ hcs (colorsFold_entries _ _ (by simp))

end Planner

namespace Planner

/-- Every output of the server normalizer satisfies the well-formedness
properties the round-trip lemma needs: categories trimmed, non-empty,
distinct and containing "General"; color entries with distinct trimmed
non-empty keys and hex values covering every category; every task
category listed and no order field. -/
theorem normalize_output_props (uuid : Nat → String) (now : Int) (today : String) (x : JSValue) :
    (∀ c ∈ (normalizeStateServer uuid now today x).categories, jsTrim c = c ∧ c ≠ "") ∧
    (normalizeStateServer uuid now today x).categories.Nodup ∧
    "General" ∈ (normalizeStateServer uuid now today x).categories ∧
    ((normalizeStateServer uuid now today x).categoryColors.map Prod.fst).Nodup ∧
    (∀ kv ∈ (normalizeStateServer uuid now today x).categoryColors,
      jsTrim kv.1 = kv.1 ∧ kv.1 ≠ "" ∧ isHexColor kv.2 = true) ∧
    (∀ c ∈ (normalizeStateServer uuid now today x).categories,
      isHexColor ((alGet (normalizeStateServer uuid now today x).categoryColors c).getD "") = true) ∧
    (∀ t ∈ (normalizeStateServer uuid now today x).tasks,
      t.category ∈ (normalizeStateServer uuid now today x).categories ∧ t.order = none) := by
  have hcats : (normalizeStateServer uuid now today x).categories = normCategories x := rfl
  have hcols : (normalizeStateServer uuid now today x).categoryColors
      = normColors x (normCategories x) := rfl
  have htsk : (normalizeStateServer uuid now today x).tasks
      = jsMapIdx (normTask uuid now today (normCategories x)) ((rawTasksOf x).filter isObjectLike) := rfl
  rw [hcats, hcols, htsk]
  refine ⟨fun c hc => ⟨normCategories_trimmed x c hc, normCategories_ne x c hc⟩,
    normCategories_nodup x, normCategories_general x,
    normColors_keysNodup x _,
    normColors_entries x _ (fun c hc => ⟨normCategories_trimmed x c hc, normCategories_ne x c hc⟩),
    normColors_covers x _, ?_⟩
  intro t ht
  simp only [jsMapIdx] at ht
  obtain ⟨j, a, _, rfl⟩ := mem_mapIdxFrom _ _ _ _ ht
  exact ⟨normTask_category_mem _ _ _ _ _ _ (normCategories_general x) (normCategories_ne x), rfl⟩

/-- The residual coercion of a second pass is idempotent when the
supplied defaults are themselves non-blank. -/
theorem recoerceTask_idem (uuid : Nat → String) (now : Int) (today : String) (j : Nat) (t : Task)
    (huuid : uuid j ≠ "") (hnow : now ≠ 0) (htoday : today ≠ "") :
    recoerceTask uuid now today j (recoerceTask uuid now today j t)
      = recoerceTask uuid now today j t := by
  by_cases h1 : t.id = "" <;> by_cases h2 : t.priority = "" <;> by_cases h3 : t.taskType = "" <;>
    by_cases h4 : t.date = "" <;> by_cases h5 : t.createdAt = 0 <;>
    simp [recoerceTask, h1, h2, h3, h4, h5, huuid, hnow, htoday]

/-- The uuids of the fixed supply are never blank. -/
theorem uuidFix_ne (i : Nat) : uuidFix i ≠ "" := by
  intro h
  have hlen := congrArg String.length h
  rw [uuidFix] at h
  have : ("uuid-" ++ toString i).length = 5 + (toString i).length := by
    rw [String.length_append]
    rfl
  rw [uuidFix] at hlen
  rw [this] at hlen
  simp at hlen

end Planner

namespace Planner

/-- C1 counterexample: one application of the server `normalizeState` is
not idempotent. Feeding `{tasks: [{id: "a", priority: []}]}` through once
stores `priority = String([]) = ""` (an empty array is truthy, so `||
"Medium"` never fires), and the second pass replaces that `""` with
`"Medium"`, so the two outputs differ. -/
theorem C1_normalize_counterexample :
    normalizeStateServer uuidFix 1 "2025-01-01"
        (stateToJS (normalizeStateServer uuidFix 1 "2025-01-01" c1Input)) ≠
      normalizeStateServer uuidFix 1 "2025-01-01" c1Input := by
  decide

/-- C1 (amended): the server `normalizeState` is not idempotent in one
application, but it stabilizes after two: with `today`, the current time
and the drawn UUIDs held fixed (today non-blank, UUIDs non-blank, time
non-zero), `normalize(normalize(normalize(x))) = normalize(normalize(x))`
for every input document `x`. -/
theorem C1_normalize_stabilizes (uuid : Nat → String) (now : Int) (today : String) (x : JSValue)
    (huuid : ∀ i, uuid i ≠ "") (hnow : now ≠ 0) (htoday : today ≠ "") :
    normalizeStateServer uuid now today
        (stateToJS (normalizeStateServer uuid now today
          (stateToJS (normalizeStateServer uuid now today x)))) =
      normalizeStateServer uuid now today
        (stateToJS (normalizeStateServer uuid now today x)) := by
  obtain ⟨hp1, hnd1, hg1, hk1, hentry1, hcover1, htasks1⟩ := normalize_output_props uuid now today x
  have hs2 := normalize_stateToJS uuid now today (normalizeStateServer uuid now today x)
    (fun c hc => (hp1 c hc).1) (fun c hc => (hp1 c hc).2) hnd1 hg1 hk1 hentry1 hcover1 htasks1
  obtain ⟨hp2, hnd2, hg2, hk2, hentry2, hcover2, htasks2⟩ :=
    normalize_output_props uuid now today (stateToJS (normalizeStateServer uuid now today x))
  have hs3 := normalize_stateToJS uuid now today
    (normalizeStateServer uuid now today (stateToJS (normalizeStateServer uuid now today x)))
    (fun c hc => (hp2 c hc).1) (fun c hc => (hp2 c hc).2) hnd2 hg2 hk2 hentry2 hcover2 htasks2
  rw [hs3, hs2]
  simp only [SState.mk.injEq]
  refine ⟨?_, trivial, trivial, ?_⟩
  · simp only [jsMapIdx]
    rw [mapIdxFrom_comp]
    exact mapIdxFrom_congr _ _ 0 _
      (fun j a _ => recoerceTask_idem uuid now today j a (huuid j) hnow htoday)
  · by_cases hsel : (normalizeStateServer uuid now today x).selectedDate = ""
    · rw [if_pos hsel, if_neg htoday]
    · rw [if_neg hsel, if_neg hsel]

/-- Witness: the two-pass stabilization instantiated at the C1
counterexample input with concrete today, time and uuid supply. -/
theorem C1_normalize_stabilizes_witness :
    normalizeStateServer uuidFix 1 "2025-01-01"
        (stateToJS (normalizeStateServer uuidFix 1 "2025-01-01"
          (stateToJS (normalizeStateServer uuidFix 1 "2025-01-01" c1Input)))) =
      normalizeStateServer uuidFix 1 "2025-01-01"
        (stateToJS (normalizeStateServer uuidFix 1 "2025-01-01" c1Input)) :=
  C1_normalize_stabilizes uuidFix 1 "2025-01-01" c1Input uuidFix_ne (by decide) (by decide)

end Planner
